import Mathlib

set_option maxRecDepth 100000

/-!
Verification of the satellite-site deployment script (`auto_deploy.py`).

The script pulls documents from a remote folder, converts each one to an
HTML artifact, keeps a durable set of already-processed document ids, and
distributes artifacts to three publish targets: an incremental GitHub
target that receives only new artifacts, and two broadcast targets
(Netlify, Vercel) that each receive a random sample of up to 10 artifacts
drawn from the whole pool.

The development below is a shallow embedding of the script's pure logic:
external effects (network fetches, the random number generator, file
reads) are passed in as explicit data, and every function mirrors the
corresponding Python function line by line.
-/

/-- An article as built by `load_articles_from_drive`
(the Python dict with keys `id`, `name`, `content`). -/
structure Article where
  id : String
  name : String
  content : String
deriving Repr, DecidableEq

/-- Model of Python's `random.sample(pool, k)`: draw `k` elements without
replacement.  The randomness is passed in as a list of pick numbers; each
step selects the index `picks.headD 0 % pool.length` from the remaining
pool and removes it.  Any concrete `picks` list realises one possible
outcome of the generator. -/
def random_sample {α : Type} (pool : List α) (k : Nat) (picks : List Nat) : List α :=
  match k, pool with
  | 0, _ => []
  | _ + 1, [] => []
  | k + 1, a :: rest =>
    let i := picks.headD 0 % (a :: rest).length
    (a :: rest).get ⟨i, Nat.mod_lt _ (Nat.succ_pos _)⟩ ::
      random_sample ((a :: rest).eraseIdx i) k (picks.tail)

/-- The three per-target partitions returned by `distribute_articles`. -/
structure Distribution where
  github : List Article
  netlify : List Article
  vercel : List Article
deriving Repr, DecidableEq

/-- Embedding of `distribute_articles` (src/auto_deploy.py:1293-1313):
GitHub gets the new articles verbatim; Netlify and Vercel each get an
independent `random.sample` of `min 10 |all_articles|` articles from the
whole pool. -/
def distribute_articles (all_articles new_articles : List Article)
    (netlify_picks vercel_picks : List Nat) : Distribution :=
  let article_count := min 10 all_articles.length
  { github := new_articles
    netlify := random_sample all_articles article_count netlify_picks
    vercel := random_sample all_articles article_count vercel_picks }

theorem random_sample_length {α : Type} :
    ∀ (k : Nat) (pool : List α) (picks : List Nat), k ≤ pool.length →
      (random_sample pool k picks).length = k
  | 0, _, _, _ => rfl
  | k + 1, [], _, h => absurd h (by simp)
  | k + 1, a :: rest, picks, h => by
    show ((a :: rest).get _ :: random_sample _ k _).length = k + 1
    rw [List.length_cons, random_sample_length k]
    rw [List.length_eraseIdx_of_lt (Nat.mod_lt _ (by simp))]
    simp only [List.length_cons] at h ⊢
    omega

theorem random_sample_subset {α : Type} :
    ∀ (k : Nat) (pool : List α) (picks : List Nat) (x : α),
      x ∈ random_sample pool k picks → x ∈ pool
  | 0, _, _, _, h => absurd h (by simp [random_sample])
  | _ + 1, [], _, _, h => absurd h (by simp [random_sample])
  | k + 1, a :: rest, picks, x, h => by
    replace h : x ∈ (a :: rest).get _ :: random_sample ((a :: rest).eraseIdx _) k _ := h
    rcases List.mem_cons.mp h with h | h
    · exact h ▸ List.get_mem _ _ _
    · exact (List.eraseIdx_sublist (a :: rest) _).subset
        (random_sample_subset k _ _ x h)

theorem get_not_mem_eraseIdx {α : Type} :
    ∀ (l : List α) (i : Fin l.length), l.Nodup → l.get i ∉ l.eraseIdx i
  | a :: t, ⟨0, _⟩, h => by
    simp only [List.get, List.eraseIdx]
    exact (List.nodup_cons.mp h).1
  | a :: t, ⟨j + 1, hj⟩, h => by
    simp only [List.get, List.eraseIdx, List.mem_cons]
    have hn := List.nodup_cons.mp h
    rintro (he | hm)
    · exact hn.1 (he ▸ List.get_mem t j (Nat.lt_of_succ_lt_succ hj))
    · exact get_not_mem_eraseIdx t ⟨j, Nat.lt_of_succ_lt_succ hj⟩ hn.2 hm

theorem random_sample_nodup {α : Type} :
    ∀ (k : Nat) (pool : List α) (picks : List Nat), pool.Nodup →
      (random_sample pool k picks).Nodup
  | 0, _, _, _ => List.nodup_nil
  | _ + 1, [], _, _ => List.nodup_nil
  | k + 1, a :: rest, picks, h => by
    show ((a :: rest).get _ :: random_sample _ k _).Nodup
    rw [List.nodup_cons]
    refine ⟨fun hm => ?_, random_sample_nodup k _ _ ?_⟩
    · exact get_not_mem_eraseIdx (a :: rest) _ h (random_sample_subset k _ _ _ hm)
    · exact (List.eraseIdx_sublist (a :: rest) _).nodup h

theorem random_sample_covers {α : Type} [DecidableEq α]
    (pool : List α) (picks : List Nat) (h : pool.Nodup) :
    ∀ x ∈ pool, x ∈ random_sample pool pool.length picks := by
  intro x hx
  have hlen : (random_sample pool pool.length picks).length = pool.length :=
    random_sample_length _ _ _ (Nat.le_refl _)
  have hsub : (random_sample pool pool.length picks).toFinset ⊆ pool.toFinset := by
    intro y hy
    rw [List.mem_toFinset] at hy ⊢
    exact random_sample_subset _ _ _ _ hy
  have hnd : (random_sample pool pool.length picks).Nodup :=
    random_sample_nodup _ _ _ h
  have hcard : pool.toFinset.card ≤ (random_sample pool pool.length picks).toFinset.card := by
    rw [List.toFinset_card_of_nodup h, List.toFinset_card_of_nodup hnd, hlen]
  have heq := Finset.eq_of_subset_of_card_le hsub hcard
  rw [← List.mem_toFinset, heq, List.mem_toFinset]
  exact hx

/-- Python's default whitespace set for `str.strip` (ASCII part). -/
def pyWs (c : Char) : Bool :=
  c = ' ' || c = '\t' || c = '\n' || c = '\r' || c = Char.ofNat 11 || c = Char.ofNat 12

/-- Lowercase a character list (Python `str.lower`, ASCII letters). -/
def lcList (s : List Char) : List Char := s.map Char.toLower

/-- Case-insensitive `startswith`: `pat` is given lowercase. -/
def startsCI (pat s : List Char) : Bool := pat.isPrefixOf (lcList s)

/-- Case-sensitive `startswith`. -/
def startsCS (pat s : List Char) : Bool := pat.isPrefixOf s

/-- Python `str.lstrip()`. -/
def stripLeft (s : List Char) : List Char := s.dropWhile pyWs

/-- Python `str.rstrip()`. -/
def stripRight (s : List Char) : List Char := (s.reverse.dropWhile pyWs).reverse

/-- Python `str.strip()`. -/
def pyStrip (s : List Char) : List Char := stripRight (stripLeft s)

/-- A single-quote character, kept out of string literals. -/
def sqChar : Char := Char.ofNat 39

/-- A single-quote string. -/
def sqs : String := String.mk [sqChar]

/-- The test `text_content.strip().lower().startswith(('<!doctype html', '<html'))`
from `download_file_content` (src/auto_deploy.py:1016). -/
def plain_is_already_html (content : String) : Bool :=
  startsCI (("<!doctype html").data) (pyStrip content.data) ||
    startsCI (("<html").data) (pyStrip content.data)

/-- The minimal HTML skeleton that `download_file_content` wraps around plain
text that is not already HTML (src/auto_deploy.py:1019-1028). -/
def plain_text_wrap (name content : String) : String :=
  ("<!DOCTYPE html>\n<html>\n<head>\n    <meta charset=") ++ sqs ++ ("utf-8") ++ sqs ++
    (">\n    <title>") ++ name ++ ("</title>\n</head>\n<body>\n    <pre>") ++ content ++
    ("</pre>\n</body>\n</html>")

/-- Embedding of `download_file_content` (src/auto_deploy.py:992-1042).
`fetched` is the successfully downloaded and UTF-8 decoded body, or `none`
when the fetch or the decode raised (the function catches the exception and
returns Python `None`).  HTML bodies and Google-Docs HTML exports are passed
through verbatim; plain text is passed through when it already starts with an
HTML marker and is wrapped in the minimal skeleton otherwise; any other MIME
type yields `None`. -/
def download_file_content (mime name : String) (fetched : Option String) : Option String :=
  match fetched with
  | none => none
  | some content =>
    if startsCS (("text/html").data) mime.data then some content
    else if mime = ("text/plain") then
      some (if plain_is_already_html content then content else plain_text_wrap name content)
    else if mime = ("application/vnd.google-apps.document") then some content
    else none

/-- A file listed from the remote folder, together with the outcome of
fetching its body (`none` = the download or the UTF-8 decode failed). -/
structure RemoteFile where
  id : String
  name : String
  mimeType : String
  fetched : Option String
deriving Repr, DecidableEq

/-- The content `download_file_content` produces for one remote file. -/
def drive_download (f : RemoteFile) : Option String :=
  download_file_content f.mimeType f.name f.fetched

/-- Result of `load_articles_from_drive`: the full article pool, the articles
whose ids were not yet processed, and the processed-id set saved at the end
of the run. -/
structure LoadResult where
  all_articles : List Article
  new_articles : List Article
  processed : List String
deriving Repr, DecidableEq

/-- Embedding of the loop of `load_articles_from_drive`
(src/auto_deploy.py:1315-1354): for each listed file, download its content;
skip the file when the download failed or the body is empty (`if content:`);
otherwise append the article to the pool, and when its id is not in the
processed set, also append it to the new articles and add the id to the
processed set, which is saved at the end. -/
def load_articles_from_drive (files : List RemoteFile) (processed : List String) :
    LoadResult :=
  match files with
  | [] => ⟨[], [], processed⟩
  | f :: fs =>
    match drive_download f with
    | some c =>
      if c = ("") then load_articles_from_drive fs processed
      else if f.id ∈ processed then
        ⟨⟨f.id, f.name, c⟩ :: (load_articles_from_drive fs processed).all_articles,
         (load_articles_from_drive fs processed).new_articles,
         (load_articles_from_drive fs processed).processed⟩
      else
        ⟨⟨f.id, f.name, c⟩ :: (load_articles_from_drive fs (f.id :: processed)).all_articles,
         ⟨f.id, f.name, c⟩ :: (load_articles_from_drive fs (f.id :: processed)).new_articles,
         (load_articles_from_drive fs (f.id :: processed)).processed⟩
    | none => load_articles_from_drive fs processed

theorem load_processed_superset (files : List RemoteFile) (p : List String) :
    ∀ s ∈ p, s ∈ (load_articles_from_drive files p).processed := by
  induction files generalizing p with
  | nil => intro s hs; exact hs
  | cons f fs ih =>
    intro s hs
    cases hdl : drive_download f with
    | none =>
      simp only [load_articles_from_drive, hdl]
      exact ih p s hs
    | some c =>
      by_cases hc : c = ("")
      · simp only [load_articles_from_drive, hdl, if_pos hc]
        exact ih p s hs
      · by_cases hp : f.id ∈ p
        · simp only [load_articles_from_drive, hdl, if_neg hc, if_pos hp]
          exact ih p s hs
        · simp only [load_articles_from_drive, hdl, if_neg hc, if_neg hp]
          exact ih (f.id :: p) s (List.mem_cons_of_mem _ hs)

theorem load_all_ids_processed (files : List RemoteFile) (p : List String) :
    ∀ a ∈ (load_articles_from_drive files p).all_articles,
      a.id ∈ (load_articles_from_drive files p).processed := by
  induction files generalizing p with
  | nil => intro a ha; exact absurd ha (by simp [load_articles_from_drive])
  | cons f fs ih =>
    intro a ha
    cases hdl : drive_download f with
    | none =>
      simp only [load_articles_from_drive, hdl] at ha ⊢
      exact ih p a ha
    | some c =>
      by_cases hc : c = ("")
      · simp only [load_articles_from_drive, hdl, if_pos hc] at ha ⊢
        exact ih p a ha
      · by_cases hp : f.id ∈ p
        · simp only [load_articles_from_drive, hdl, if_neg hc, if_pos hp] at ha ⊢
          rcases List.mem_cons.mp ha with rfl | ha
          · exact load_processed_superset fs p _ hp
          · exact ih p a ha
        · simp only [load_articles_from_drive, hdl, if_neg hc, if_neg hp] at ha ⊢
          rcases List.mem_cons.mp ha with rfl | ha
          · exact load_processed_superset fs (f.id :: p) _ (List.mem_cons_self _ _)
          · exact ih (f.id :: p) a ha

theorem load_new_not_in_start (files : List RemoteFile) (p : List String) :
    ∀ a ∈ (load_articles_from_drive files p).new_articles, a.id ∉ p := by
  induction files generalizing p with
  | nil => intro a ha; exact absurd ha (by simp [load_articles_from_drive])
  | cons f fs ih =>
    intro a ha
    cases hdl : drive_download f with
    | none =>
      simp only [load_articles_from_drive, hdl] at ha
      exact ih p a ha
    | some c =>
      by_cases hc : c = ("")
      · simp only [load_articles_from_drive, hdl, if_pos hc] at ha
        exact ih p a ha
      · by_cases hp : f.id ∈ p
        · simp only [load_articles_from_drive, hdl, if_neg hc, if_pos hp] at ha
          exact ih p a ha
        · simp only [load_articles_from_drive, hdl, if_neg hc, if_neg hp] at ha
          rcases List.mem_cons.mp ha with rfl | ha
          · exact hp
          · intro hmem
            exact ih (f.id :: p) a ha (List.mem_cons_of_mem _ hmem)

theorem load_new_ids_nodup (files : List RemoteFile) (p : List String) :
    ((load_articles_from_drive files p).new_articles.map Article.id).Nodup := by
  induction files generalizing p with
  | nil => simp [load_articles_from_drive]
  | cons f fs ih =>
    cases hdl : drive_download f with
    | none =>
      simp only [load_articles_from_drive, hdl]
      exact ih p
    | some c =>
      by_cases hc : c = ("")
      · simp only [load_articles_from_drive, hdl, if_pos hc]
        exact ih p
      · by_cases hp : f.id ∈ p
        · simp only [load_articles_from_drive, hdl, if_neg hc, if_pos hp]
          exact ih p
        · simp only [load_articles_from_drive, hdl, if_neg hc, if_neg hp,
            List.map_cons, List.nodup_cons]
          refine ⟨fun hmem => ?_, ih (f.id :: p)⟩
          rcases List.mem_map.mp hmem with ⟨a, ha, hid⟩
          exact load_new_not_in_start fs (f.id :: p) a ha
            (hid ▸ List.mem_cons_self _ _)

theorem load_new_eq_filter (files : List RemoteFile) (p p₀ : List String)
    (hN : (files.map RemoteFile.id).Nodup)
    (hagree : ∀ f ∈ files, (f.id ∈ p ↔ f.id ∈ p₀)) :
    (load_articles_from_drive files p).new_articles =
      (load_articles_from_drive files p).all_articles.filter
        (fun a => decide (a.id ∉ p₀)) := by
  induction files generalizing p with
  | nil => simp [load_articles_from_drive]
  | cons f fs ih =>
    have hNtail : (fs.map RemoteFile.id).Nodup := (List.nodup_cons.mp hN).2
    have hNhead : f.id ∉ fs.map RemoteFile.id := (List.nodup_cons.mp hN).1
    cases hdl : drive_download f with
    | none =>
      simp only [load_articles_from_drive, hdl]
      exact ih p hNtail (fun g hg => hagree g (List.mem_cons_of_mem _ hg))
    | some c =>
      by_cases hc : c = ("")
      · simp only [load_articles_from_drive, hdl, if_pos hc]
        exact ih p hNtail (fun g hg => hagree g (List.mem_cons_of_mem _ hg))
      · by_cases hp : f.id ∈ p
        · have hp₀ : f.id ∈ p₀ := (hagree f (List.mem_cons_self _ _)).mp hp
          simp only [load_articles_from_drive, hdl, if_neg hc, if_pos hp,
            List.filter_cons]
          have hdec : (decide ((⟨f.id, f.name, c⟩ : Article).id ∉ p₀)) = false := by
            simp [hp₀]
          rw [hdec]
          simp only [Bool.false_eq_true, if_false]
          exact ih p hNtail (fun g hg => hagree g (List.mem_cons_of_mem _ hg))
        · have hp₀ : f.id ∉ p₀ := fun h => hp ((hagree f (List.mem_cons_self _ _)).mpr h)
          simp only [load_articles_from_drive, hdl, if_neg hc, if_neg hp,
            List.filter_cons]
          have hdec : (decide ((⟨f.id, f.name, c⟩ : Article).id ∉ p₀)) = true := by
            simp [hp₀]
          rw [hdec]
          rw [if_pos (by trivial)]
          rw [List.cons.injEq]
          refine ⟨rfl, ih (f.id :: p) hNtail (fun g hg => ?_)⟩
          have hne : g.id ≠ f.id := by
            intro he
            exact hNhead (he ▸ List.mem_map.mpr ⟨g, hg, rfl⟩)
          rw [List.mem_cons]
          constructor
          · rintro (h | h)
            · exact absurd h hne
            · exact (hagree g (List.mem_cons_of_mem _ hg)).mp h
          · intro h
            exact Or.inr ((hagree g (List.mem_cons_of_mem _ hg)).mpr h)

/-- C1: the incremental-publish (GitHub) partition produced by
`distribute_articles` is exactly the list of artifacts whose source ids
were not in the processed set loaded at the start of the run — uncapped,
unrandomized, each such artifact exactly once — every id seen this run
(plus the loaded set) is persisted, and in a later run starting from the
persisted set no artifact with an already-processed id can appear in the
incremental partition again. -/
theorem github_partition_incremental (files files₂ : List RemoteFile) (p₀ : List String)
    (pN pV pN₂ pV₂ : List Nat) (hN : (files.map RemoteFile.id).Nodup) :
    ((distribute_articles (load_articles_from_drive files p₀).all_articles
        (load_articles_from_drive files p₀).new_articles pN pV).github =
      (load_articles_from_drive files p₀).all_articles.filter
        (fun a => decide (a.id ∉ p₀))) ∧
    (((distribute_articles (load_articles_from_drive files p₀).all_articles
        (load_articles_from_drive files p₀).new_articles pN pV).github.map
          Article.id).Nodup) ∧
    (∀ s ∈ p₀, s ∈ (load_articles_from_drive files p₀).processed) ∧
    (∀ a ∈ (load_articles_from_drive files p₀).all_articles,
       a.id ∈ (load_articles_from_drive files p₀).processed) ∧
    (∀ a ∈ (distribute_articles
        (load_articles_from_drive files₂
          (load_articles_from_drive files p₀).processed).all_articles
        (load_articles_from_drive files₂
          (load_articles_from_drive files p₀).processed).new_articles pN₂ pV₂).github,
      a.id ∉ (load_articles_from_drive files p₀).processed) := by
  refine ⟨?_, ?_, load_processed_superset files p₀, load_all_ids_processed files p₀, ?_⟩
  · exact load_new_eq_filter files p₀ p₀ hN (fun _ _ => Iff.rfl)
  · exact load_new_ids_nodup files p₀
  · intro a ha
    exact load_new_not_in_start files₂ _ a ha

/-- Witness for C1: a concrete run over two listed files (one of them
already processed) starting from the processed set `["d0"]`. -/
theorem github_partition_incremental_witness :
    (([⟨("d1"), ("A"), ("text/html"), some ("<p>x</p>")⟩,
       ⟨("d0"), ("B"), ("text/html"), some ("<p>y</p>")⟩] : List RemoteFile).map
        RemoteFile.id).Nodup ∧
    ((distribute_articles
        (load_articles_from_drive
          [⟨("d1"), ("A"), ("text/html"), some ("<p>x</p>")⟩,
           ⟨("d0"), ("B"), ("text/html"), some ("<p>y</p>")⟩] [("d0")]).all_articles
        (load_articles_from_drive
          [⟨("d1"), ("A"), ("text/html"), some ("<p>x</p>")⟩,
           ⟨("d0"), ("B"), ("text/html"), some ("<p>y</p>")⟩] [("d0")]).new_articles
        [] []).github =
      (load_articles_from_drive
          [⟨("d1"), ("A"), ("text/html"), some ("<p>x</p>")⟩,
           ⟨("d0"), ("B"), ("text/html"), some ("<p>y</p>")⟩] [("d0")]).all_articles.filter
        (fun a => decide (a.id ∉ [("d0")]))) :=
  ⟨by decide,
    (github_partition_incremental
      [⟨("d1"), ("A"), ("text/html"), some ("<p>x</p>")⟩,
       ⟨("d0"), ("B"), ("text/html"), some ("<p>y</p>")⟩] [] [("d0")]
      [] [] [] [] (by decide)).1⟩

/-- C6: a remote document served with an HTML MIME type is passed through
verbatim — the artifact body is identical to the fetched content — and a
PlainText document whose stripped, lowercased content starts with an HTML
document marker is likewise passed through unchanged. -/
theorem already_html_passthrough (mime name content : String)
    (hmime : startsCS (("text/html").data) mime.data = true) :
    download_file_content mime name (some content) = some content ∧
    (plain_is_already_html content = true →
      download_file_content ("text/plain") name (some content) = some content) := by
  constructor
  · simp only [download_file_content]
    rw [if_pos hmime]
  · intro h
    have hm : startsCS (("text/html").data) (("text/plain") : String).data = false := by
      decide
    simp [download_file_content, hm, h]

/-- Witness for C6 at the bytes of the already-HTML scenario. -/
theorem already_html_passthrough_witness :
    (startsCS (("text/html").data) (("text/html").data) = true) ∧
    (plain_is_already_html ("<!DOCTYPE html><html></html>") = true) ∧
    download_file_content ("text/html") ("Doc") (some ("<!DOCTYPE html><html></html>")) =
      some ("<!DOCTYPE html><html></html>") ∧
    download_file_content ("text/plain") ("Doc") (some ("<!DOCTYPE html><html></html>")) =
      some ("<!DOCTYPE html><html></html>") :=
  ⟨by decide, by decide,
    (already_html_passthrough ("text/html") ("Doc") ("<!DOCTYPE html><html></html>")
      (by decide)).1,
    (already_html_passthrough ("text/html") ("Doc") ("<!DOCTYPE html><html></html>")
      (by decide)).2 (by decide)⟩

/-- Embedding of `load_processed_files` (src/auto_deploy.py:961-970).
`fileExists` models `os.path.exists`; `readResult` is `none` when opening,
reading or JSON-parsing the file raised (the `except` branch logs and falls
through to `return set()`), `some none` when the parsed JSON has no
`fileIds` key (`data.get('fileIds', [])`), and `some (some ids)` on a good
read. -/
def load_processed_files (fileExists : Bool)
    (readResult : Option (Option (List String))) : List String :=
  if fileExists then
    match readResult with
    | none => []
    | some none => []
    | some (some ids) => ids
  else []

/-- C8: loading the processed set never propagates a failure: an absent
file yields the empty set, a corrupt or unreadable file is treated as the
empty set (after logging), a file without the expected key yields the empty
set, and only a good read yields its ids. -/
theorem load_processed_files_never_fails (r : Option (Option (List String)))
    (ids : List String) :
    load_processed_files false r = [] ∧
    load_processed_files true none = [] ∧
    load_processed_files true (some none) = [] ∧
    load_processed_files true (some (some ids)) = ids :=
  ⟨rfl, rfl, rfl, rfl⟩

/-- Splitting a character list at newline characters; mirrors iterating a
Python text file line by line (the trailing newline that iteration keeps on
each line is consumed by the later `strip`). -/
def splitLinesNl : List Char → List (List Char)
  | [] => [[]]
  | c :: rest =>
    if c = '\n' then [] :: splitLinesNl rest
    else
      match splitLinesNl rest with
      | [] => [[c]]
      | h :: t => (c :: h) :: t

/-- Embedding of `load_cross_links` (src/auto_deploy.py:1423-1434): return
`[]` when the file does not exist; on a read error log and return `[]`;
otherwise `[line.strip() for line in f if line.strip()]` — keep the lines
whose stripped form is non-blank, stripped, in file order. -/
def load_cross_links (fileExists : Bool) (readResult : Option (List Char)) :
    List (List Char) :=
  if fileExists then
    match readResult with
    | none => []
    | some text =>
      ((splitLinesNl text).filter (fun l => !(pyStrip l).isEmpty)).map pyStrip
  else []

/-- The spec-side description of the good-read case: the file's lines, each
stripped of surrounding whitespace, with blank lines removed, in their
original order. -/
def cross_links_spec (text : List Char) : List (List Char) :=
  ((splitLinesNl text).map pyStrip).filter (fun l => !l.isEmpty)

theorem map_strip_filter (l : List (List Char)) :
    (l.filter (fun x => !(pyStrip x).isEmpty)).map pyStrip =
      (l.map pyStrip).filter (fun x => !x.isEmpty) := by
  induction l with
  | nil => rfl
  | cons x xs ih =>
    by_cases h : (pyStrip x).isEmpty
    · simp [List.filter_cons, h, ih]
    · simp [List.filter_cons, h, ih]

/-- C10: `load_cross_links` returns the empty list when the file is absent,
the empty list when reading fails (after logging), and otherwise exactly
the file's non-blank lines, stripped of surrounding whitespace, in their
original order; a run never requires the cross-link file. -/
theorem load_cross_links_spec (text : List Char) (r : Option (List Char)) :
    load_cross_links false r = [] ∧
    load_cross_links true none = [] ∧
    load_cross_links true (some text) = cross_links_spec text := by
  refine ⟨rfl, rfl, ?_⟩
  simp only [load_cross_links, cross_links_spec, if_pos rfl]
  exact map_strip_filter _

/-- C2: for every pool of artifacts and every broadcast target (Netlify or
Vercel) with capacity 10, the partition returned by `distribute_articles`
has size `min 10 |pool|` — never exceeding the capacity, equal to the whole
pool when the pool is smaller than the capacity, and empty for an empty
pool — and contains no duplicate artifact within that single partition. -/
theorem distribute_articles_broadcast_cap (all_articles new_articles : List Article)
    (netlify_picks vercel_picks : List Nat) (h : all_articles.Nodup) :
    ((distribute_articles all_articles new_articles netlify_picks vercel_picks).netlify.length
       = min 10 all_articles.length) ∧
    ((distribute_articles all_articles new_articles netlify_picks vercel_picks).vercel.length
       = min 10 all_articles.length) ∧
    (distribute_articles all_articles new_articles netlify_picks vercel_picks).netlify.Nodup ∧
    (distribute_articles all_articles new_articles netlify_picks vercel_picks).vercel.Nodup ∧
    (all_articles.length < 10 →
      (∀ a ∈ all_articles,
         a ∈ (distribute_articles all_articles new_articles netlify_picks vercel_picks).netlify) ∧
      (∀ a ∈ all_articles,
         a ∈ (distribute_articles all_articles new_articles netlify_picks vercel_picks).vercel)) := by
  have hmin : min 10 all_articles.length ≤ all_articles.length := Nat.min_le_right _ _
  refine ⟨random_sample_length _ _ _ hmin, random_sample_length _ _ _ hmin,
    random_sample_nodup _ _ _ h, random_sample_nodup _ _ _ h, fun hsmall => ?_⟩
  have hmin' : min 10 all_articles.length = all_articles.length := by omega
  constructor
  · intro a ha
    have := random_sample_covers all_articles netlify_picks h a ha
    simpa [distribute_articles, hmin'] using this
  · intro a ha
    have := random_sample_covers all_articles vercel_picks h a ha
    simpa [distribute_articles, hmin'] using this

/-- First index at which `pat` occurs in a character list (case-sensitive),
`none` when it does not occur. -/
def findCS (pat : List Char) : List Char → Option Nat
  | [] => none
  | c :: rest =>
    if startsCS pat (c :: rest) then some 0 else (findCS pat rest).map (· + 1)

theorem findCS_some_lt (pat : List Char) :
    ∀ (s : List Char) (i : Nat), findCS pat s = some i → i < s.length := by
  intro s
  induction s with
  | nil => intro i h; exact absurd h (by simp [findCS])
  | cons c rest ih =>
    intro i h
    simp only [findCS] at h
    by_cases hs : startsCS pat (c :: rest) = true
    · rw [if_pos hs] at h
      cases h
      simp
    · rw [if_neg hs] at h
      cases hf : findCS pat rest with
      | none => rw [hf] at h; exact absurd h (by simp)
      | some j =>
        rw [hf] at h
        simp only [Option.map_some', Option.some.injEq] at h
        have hj := ih j hf
        simp only [List.length_cons]
        omega

/-- Python `content.replace("</body>", rep)`: replace every (non-overlapping,
left-to-right) occurrence, continuing after the inserted replacement. -/
def replace_body_all (rep : List Char) (s : List Char) : List Char :=
  match h : findCS (("</body>").data) s with
  | none => s
  | some i => s.take i ++ rep ++ replace_body_all rep (s.drop (i + 7))
termination_by s.length
decreasing_by
  simp only [List.length_drop]
  have := findCS_some_lt (("</body>").data) s i h
  omega

/-- The footer block that `create_site_content` builds for one article from
the sampled sibling articles (src/auto_deploy.py:1723-1726). -/
def csc_footer_links (ras : List Article) : String :=
  (ras.foldl
    (fun acc ra => acc ++ ("<li><a href=\"") ++ ra.id ++ (".html\">") ++ ra.name ++
      ("</a></li>\n"))
    ("\n<footer><h3>相关阅读</h3>\n<ul>")) ++ ("</ul></footer>\n")

/-- `content.replace("</body>", f"{footer_links}</body>")`
(src/auto_deploy.py:1729). -/
def csc_enrich (footer : String) (content : String) : String :=
  String.mk (replace_body_all (footer.data ++ ("</body>").data) content.data)

/-- The per-article content built by `create_site_content`
(src/auto_deploy.py:1716-1729): when there are other articles, sample
`min |others| randint(4,6)` of them (the randint outcome `r` and the sample
picks are passed in) and splice their footer before each `</body>`. -/
def csc_article_content (articles : List Article) (a : Article) (r : Nat)
    (picks : List Nat) : String :=
  if (articles.filter (fun b => b.id ≠ a.id)).isEmpty then a.content
  else
    csc_enrich
      (csc_footer_links
        (random_sample (articles.filter (fun b => b.id ≠ a.id))
          (min (articles.filter (fun b => b.id ≠ a.id)).length r) picks))
      a.content

/-- The index page of `create_site_content`
(src/auto_deploy.py:1699-1714, 1733). -/
def csc_index (articles : List Article) : String :=
  ("<!DOCTYPE html>\n<html>\n<head>\n    <meta charset=") ++ sqs ++ ("utf-8") ++ sqs ++
    (">\n    <title>文章列表</title>\n</head>\n<body>\n    <h1>文章列表</h1>\n    <ul>\n") ++
    (articles.foldl
      (fun acc a => acc ++ ("<li><a href=\"") ++ a.id ++ (".html\">") ++ a.name ++
        ("</a></li>\n"))
      ("")) ++ ("</ul>\n</body>\n</html>")

/-- Embedding of `create_site_content` (src/auto_deploy.py:1696-1736): the
ordered file map of the generated site — one `{id}.html` file per article
(in article order) plus the trailing `index.html`. -/
def create_site_content (articles : List Article) (r : Nat → Nat)
    (picks : Nat → List Nat) : List (String × String) :=
  (articles.enum.map (fun p =>
    (p.2.id ++ (".html"), csc_article_content articles p.2 (r p.1) (picks p.1)))) ++
  [(("index.html"), csc_index articles)]

/-- C9 (amended): every generated filename is the article's source id with
`.html` appended, in article order, plus the `index.html` landing page — no
keyword pool is consulted and the display name plays no part — and every
filename ends with `.html`. -/
theorem create_site_content_filenames (articles : List Article) (r : Nat → Nat)
    (picks : Nat → List Nat) :
    ((create_site_content articles r picks).map Prod.fst =
      articles.map (fun a => a.id ++ (".html")) ++ [("index.html")]) ∧
    (∀ k ∈ (create_site_content articles r picks).map Prod.fst,
      (".html").data <:+ k.data) := by
  constructor
  · simp only [create_site_content, List.map_append, List.map_map]
    congr 1
    have he : articles.enum.map Prod.snd = articles := List.enum_map_snd articles
    calc articles.enum.map (Prod.fst ∘ fun p =>
          (p.2.id ++ (".html"), csc_article_content articles p.2 (r p.1) (picks p.1)))
        = articles.enum.map ((fun a => a.id ++ (".html")) ∘ Prod.snd) := by
          simp [Function.comp]
      _ = (articles.enum.map Prod.snd).map (fun a => a.id ++ (".html")) := by
          rw [List.map_map]
      _ = articles.map (fun a => a.id ++ (".html")) := by rw [he]
  · intro k hk
    simp only [create_site_content, List.map_append, List.map_map, List.mem_append] at hk
    rcases hk with hk | hk
    · rcases List.mem_map.mp hk with ⟨p, -, he⟩
      have hd : k.data = p.2.id.data ++ (".html").data := by
        rw [← he]; simp [Function.comp]
      rw [hd]
      exact List.suffix_append _ _
    · simp only [List.map_cons, List.map_nil, List.mem_singleton] at hk
      subst hk
      decide

/-- C9 (counterexample): for the concrete article with id `doc1` and
display name `My Doc`, the generated filename is `doc1.html`; it is the id
with `.html` appended and does not begin with the hyphenated display name
`My-Doc`, so the filename is neither a consumed keyword nor derived from
the display name with a random 4-digit suffix as the claim states. -/
theorem create_site_content_ignores_display_name :
    ((create_site_content [⟨("doc1"), ("My Doc"), ("<body></body>")⟩]
        (fun _ => 4) (fun _ => [])).map Prod.fst =
      [("doc1.html"), ("index.html")]) ∧
    (startsCS (("My-Doc").data) (("doc1.html") : String).data = false) := by
  constructor
  · decide
  · decide

/-- Number of positions of `s` at which `pat` occurs (case-sensitive). -/
def countCS (pat : List Char) : List Char → Nat
  | [] => 0
  | c :: rest => (if startsCS pat (c :: rest) then 1 else 0) + countCS pat rest

/-- Number of positions of `s` at which `pat` occurs case-insensitively
(`pat` is given lowercase, as in the IGNORECASE regexes of the script). -/
def countCI (pat s : List Char) : Nat := countCS pat (lcList s)

/-- First case-insensitive occurrence of `pat` in `s`. -/
def findCI (pat s : List Char) : Option Nat := findCS pat (lcList s)

/-- A straddle-free split: no occurrence of `pat` starts inside `a` and
continues into `b`. -/
def noStr (pat a b : List Char) : Prop :=
  ∀ i, i < a.length → a.length < i + pat.length →
    startsCS pat ((a ++ b).drop i) = false

theorem startsCS_of_short (pat l : List Char) (h : l.length < pat.length) :
    startsCS pat l = false := by
  cases hs : startsCS pat l with
  | false => rfl
  | true =>
    have := List.IsPrefix.length_le (List.isPrefixOf_iff_prefix.mp hs)
    omega

theorem startsCS_append_left (pat l b : List Char) (h : pat.length ≤ l.length) :
    startsCS pat (l ++ b) = startsCS pat l := by
  unfold startsCS
  cases hs : pat.isPrefixOf l with
  | true =>
    have hp := List.isPrefixOf_iff_prefix.mp hs
    exact List.isPrefixOf_iff_prefix.mpr (hp.trans (List.prefix_append l b))
  | false =>
    cases hs2 : pat.isPrefixOf (l ++ b) with
    | false => rfl
    | true =>
      exfalso
      have hp := List.isPrefixOf_iff_prefix.mp hs2
      rw [List.prefix_iff_eq_take, List.take_append_of_le_length h] at hp
      have hpre : pat <+: l := by
        rw [List.prefix_iff_eq_take]; exact hp
      rw [List.isPrefixOf_iff_prefix.mpr hpre] at hs
      exact Bool.noConfusion hs

theorem countCS_cons (pat : List Char) (x : Char) (rest : List Char) :
    countCS pat (x :: rest) =
      (if startsCS pat (x :: rest) then 1 else 0) + countCS pat rest := rfl

theorem countCS_append (pat a b : List Char) (h : noStr pat a b) :
    countCS pat (a ++ b) = countCS pat a + countCS pat b := by
  induction a with
  | nil => simp [countCS]
  | cons x t ih =>
    have hx : startsCS pat (x :: (t ++ b)) = startsCS pat (x :: t) := by
      by_cases hfit : pat.length ≤ (x :: t).length
      · exact startsCS_append_left pat (x :: t) b hfit
      · rw [startsCS_of_short pat (x :: t) (by omega)]
        have := h 0 (by simp) (by simp only [List.length_cons] at hfit ⊢; omega)
        simpa using this
    have ht : noStr pat t b := by
      intro i hi hlen
      have := h (i + 1) (by simp only [List.length_cons]; omega)
        (by simp only [List.length_cons]; omega)
      simpa using this
    have e1 : countCS pat ((x :: t) ++ b) =
        (if startsCS pat (x :: (t ++ b)) then 1 else 0) + countCS pat (t ++ b) := by
      rw [List.cons_append]; exact countCS_cons _ _ _
    rw [e1, countCS_cons, hx, ih ht]
    omega

theorem noStr_of_getLast (pat a b : List Char)
    (h : ∀ c, a.getLast? = some c → ∀ j, j + 1 < pat.length →
      pat.get? j ≠ some c) : noStr pat a b := by
  intro i hi hlen
  cases hs : startsCS pat ((a ++ b).drop i) with
  | false => rfl
  | true =>
    exfalso
    have hp := List.isPrefixOf_iff_prefix.mp hs
    rw [List.prefix_iff_eq_take] at hp
    have hj : pat.get? (a.length - 1 - i) = ((a ++ b).drop i).get? (a.length - 1 - i) := by
      rw [hp, List.get?_take]
      omega
    rw [List.get?_drop] at hj
    have hidx : i + (a.length - 1 - i) = a.length - 1 := by omega
    rw [hidx] at hj
    have hlt : a.length - 1 < a.length := by omega
    rw [List.get?_append hlt] at hj
    have hlast : a.getLast? = a.get? (a.length - 1) := by
      rw [List.getLast?_eq_get? ]
    cases hg : a.get? (a.length - 1) with
    | none =>
      rw [hg] at hj
      have : a.length - 1 < a.length := hlt
      rw [List.get?_eq_none] at hg
      omega
    | some c =>
      rw [hg] at hj
      exact h c (hlast.trans hg) (a.length - 1 - i) (by omega) hj

theorem noStr_of_head (pat a b : List Char)
    (h : ∀ c, b.head? = some c → ∀ j, 0 < j → j < pat.length →
      pat.get? j ≠ some c) : noStr pat a b := by
  intro i hi hlen
  cases hs : startsCS pat ((a ++ b).drop i) with
  | false => rfl
  | true =>
    exfalso
    have hp := List.isPrefixOf_iff_prefix.mp hs
    have hplen := List.IsPrefix.length_le hp
    rw [List.length_drop, List.length_append] at hplen
    rw [List.prefix_iff_eq_take] at hp
    have hj : pat.get? (a.length - i) = ((a ++ b).drop i).get? (a.length - i) := by
      rw [hp, List.get?_take]
      omega
    rw [List.get?_drop] at hj
    have hidx : i + (a.length - i) = a.length := by omega
    rw [hidx] at hj
    rw [List.get?_append_right (Nat.le_refl _)] at hj
    rw [Nat.sub_self] at hj
    have hbh : b.get? 0 = b.head? := by
      cases b with
      | nil => rfl
      | cons y ys => rfl
    rw [hbh] at hj
    cases hh : b.head? with
    | none =>
      have hb : b = [] := by
        cases b with
        | nil => rfl
        | cons y ys => exact absurd hh (by simp)
      subst hb
      simp only [List.length_nil, Nat.add_zero] at hplen
      omega
    | some c =>
      rw [hh] at hj
      exact h c hh (a.length - i) (by omega) (by omega) hj

theorem countCS_eq_zero_of_head_notMem (pat : List Char) (c0 : Char)
    (hp : pat.head? = some c0) : ∀ (s : List Char), c0 ∉ s → countCS pat s = 0 := by
  intro s
  induction s with
  | nil => intro _; rfl
  | cons x rest ih =>
    intro hmem
    have hx : startsCS pat (x :: rest) = false := by
      cases pat with
      | nil => exact absurd hp (by simp)
      | cons p0 ps =>
        have hpc : p0 = c0 := by simpa using hp
        have hne : (p0 == x) = false := by
          rw [hpc]
          have hne2 : c0 ≠ x := fun he => hmem (he ▸ List.mem_cons_self _ _)
          simpa using hne2
        simp only [startsCS, List.isPrefixOf, hne, Bool.false_and]
    rw [countCS_cons, hx]
    simpa using ih (fun hm => hmem (List.mem_cons_of_mem _ hm))

theorem noStr_of_head_notMem (pat : List Char) (c0 : Char) (a b : List Char)
    (hp : pat.head? = some c0) (ha : c0 ∉ a) : noStr pat a b := by
  intro i hi hlen
  cases hs : startsCS pat ((a ++ b).drop i) with
  | false => rfl
  | true =>
    exfalso
    have hp2 := List.isPrefixOf_iff_prefix.mp hs
    rw [List.prefix_iff_eq_take] at hp2
    have hlen0 : 0 < pat.length := by
      cases pat with
      | nil => exact absurd hp (by simp)
      | cons p ps => simp
    have h0 : pat.get? 0 = ((a ++ b).drop i).get? 0 := by
      conv_lhs => rw [hp2]
      exact List.get?_take hlen0
    rw [List.get?_drop, Nat.add_zero, List.get?_append hi] at h0
    cases pat with
    | nil => exact absurd hp (by simp)
    | cons p ps =>
      have hpc : p = c0 := by simpa using hp
      have h0' : a.get? i = some c0 := by
        rw [← hpc]
        simpa using h0.symm
      exact ha (List.get?_mem h0')

theorem countCS_append_of_head_notMem (pat : List Char) (c0 : Char) (a b : List Char)
    (hp : pat.head? = some c0) (ha : c0 ∉ a) :
    countCS pat (a ++ b) = countCS pat b := by
  rw [countCS_append pat a b (noStr_of_head_notMem pat c0 a b hp ha),
    countCS_eq_zero_of_head_notMem pat c0 hp a ha]
  omega

theorem findCS_none_iff (pat : List Char) :
    ∀ s : List Char, findCS pat s = none ↔ countCS pat s = 0 := by
  intro s
  induction s with
  | nil => simp [findCS, countCS]
  | cons c rest ih =>
    rw [countCS_cons]
    simp only [findCS]
    cases hs : startsCS pat (c :: rest) with
    | true => simp
    | false =>
      rw [if_neg (by simp)]
      cases hf : findCS pat rest with
      | none =>
        rw [hf] at ih
        simp only [Option.map_none', true_iff] at ih ⊢
        rw [if_neg (by simp)]
        omega
      | some j =>
        rw [hf] at ih
        simp only [Option.map_some']
        constructor
        · intro he; exact absurd he (by simp)
        · intro hcz
          have hz : countCS pat rest = 0 := by omega
          exact absurd (ih.mpr hz) (by simp)

theorem findCS_some_zero (pat s : List Char) (hpat : pat ≠ [])
    (h : startsCS pat s = true) : findCS pat s = some 0 := by
  cases s with
  | nil =>
    exfalso
    have := startsCS_of_short pat []
      (by cases pat with | nil => exact absurd rfl hpat | cons p ps => simp)
    rw [this] at h
    exact Bool.noConfusion h
  | cons c rest =>
    simp [findCS, h]

theorem findCS_append_left_clean (pat : List Char) :
    ∀ (a b : List Char), countCS pat a = 0 → noStr pat a b →
      findCS pat (a ++ b) = (findCS pat b).map (· + a.length) := by
  intro a
  induction a with
  | nil =>
    intro b _ _
    simp
  | cons x t ih =>
    intro b hc hstr
    have hx : startsCS pat (x :: (t ++ b)) = false := by
      by_cases hfit : pat.length ≤ (x :: t).length
      · have heq : startsCS pat (x :: (t ++ b)) = startsCS pat (x :: t) := by
          rw [← List.cons_append]
          exact startsCS_append_left pat (x :: t) b hfit
        rw [heq, countCS_cons] at *
        cases hs : startsCS pat (x :: t) with
        | false => rfl
        | true => rw [hs] at hc; simp at hc
      · have := hstr 0 (by simp)
          (by simp only [List.length_cons] at hfit ⊢; omega)
        simpa using this
    have ht : noStr pat t b := by
      intro i hi hlen
      have := hstr (i + 1) (by simp only [List.length_cons]; omega)
        (by simp only [List.length_cons]; omega)
      simpa using this
    have htc : countCS pat t = 0 := by
      rw [countCS_cons] at hc
      omega
    have e : findCS pat ((x :: t) ++ b) =
        if startsCS pat (x :: (t ++ b)) then some 0
        else (findCS pat (t ++ b)).map (· + 1) := by
      rw [List.cons_append]; rfl
    rw [e, hx]
    simp only [Bool.false_eq_true, if_false, ih b htc ht, Option.map_map]
    cases findCS pat b with
    | none => rfl
    | some j =>
      simp only [Option.map_some', Option.some.injEq, Function.comp]
      simp only [List.length_cons]
      omega

/-- Model of the global substitution
`re.sub(r"<footer.*?</footer>", "", content, flags=DOTALL | IGNORECASE)`
(src/auto_deploy.py:1494): repeatedly find the leftmost case-insensitive
`<footer`, lazily extend to the nearest following `</footer>`, delete the
span, and continue after it; when either tag is missing nothing more
matches. -/
def removeFooters (s : List Char) : List Char :=
  match h1 : findCI (("<footer").data) s with
  | none => s
  | some i =>
    match findCI (("</footer>").data) (s.drop (i + 7)) with
    | none => s
    | some j => s.take i ++ removeFooters ((s.drop (i + 7)).drop (j + 9))
termination_by s.length
decreasing_by
  have hi : i < s.length := by
    have := findCS_some_lt (("<footer").data) (lcList s) i h1
    simpa [lcList] using this
  simp only [List.length_drop]
  omega

/-- Model of the global substitution
`re.sub(r"</body>\s*</html>\s*(?=<footer>|</body>)", "", content,
flags=IGNORECASE)` (src/auto_deploy.py:1497): at each case-insensitive
`</body>`, try to consume whitespace, `</html>`, whitespace, and check the
lookahead for `<footer>` or `</body>`; on success delete the consumed span
and continue at the lookahead, otherwise rescan from the next position. -/
def step2 (s : List Char) : List Char :=
  match h1 : findCI (("</body>").data) s with
  | none => s
  | some i =>
    if startsCI (("</html>").data) ((s.drop (i + 7)).dropWhile pyWs) then
      if startsCI (("<footer>").data)
          ((((s.drop (i + 7)).dropWhile pyWs).drop 7).dropWhile pyWs) ||
         startsCI (("</body>").data)
          ((((s.drop (i + 7)).dropWhile pyWs).drop 7).dropWhile pyWs) then
        s.take i ++ step2 ((((s.drop (i + 7)).dropWhile pyWs).drop 7).dropWhile pyWs)
      else s.take (i + 1) ++ step2 (s.drop (i + 1))
    else s.take (i + 1) ++ step2 (s.drop (i + 1))
termination_by s.length
decreasing_by
  · have hi : i < s.length := by
      have := findCS_some_lt (("</body>").data) (lcList s) i h1
      simpa [lcList] using this
    have h2 : ((s.drop (i + 7)).dropWhile pyWs).length ≤ (s.drop (i + 7)).length :=
      List.Sublist.length_le (List.dropWhile_sublist pyWs)
    have h3 : ((((s.drop (i + 7)).dropWhile pyWs).drop 7).dropWhile pyWs).length ≤
        ((((s.drop (i + 7)).dropWhile pyWs).drop 7)).length :=
      List.Sublist.length_le (List.dropWhile_sublist pyWs)
    simp only [List.length_drop] at *
    omega
  · have hi : i < s.length := by
      have := findCS_some_lt (("</body>").data) (lcList s) i h1
      simpa [lcList] using this
    simp only [List.length_drop]
    omega
  · have hi : i < s.length := by
      have := findCS_some_lt (("</body>").data) (lcList s) i h1
      simpa [lcList] using this
    simp only [List.length_drop]
    omega

/-- Model of the final substitution
`re.sub(r"</body>\s*</html>.*$", "", content, flags=IGNORECASE)`
(src/auto_deploy.py:1514): match a case-insensitive `</body>`, whitespace,
`</html>`, then the rest of that line; `$` requires the match to reach the
end of the string (or stop just before one final newline, which is kept).
On failure rescan from the next position. -/
def step4 (s : List Char) : List Char :=
  match h1 : findCI (("</body>").data) s with
  | none => s
  | some i =>
    if startsCI (("</html>").data) ((s.drop (i + 7)).dropWhile pyWs) then
      if (((s.drop (i + 7)).dropWhile pyWs).drop 7).all (fun c => c ≠ '\n') then
        s.take i
      else if (((s.drop (i + 7)).dropWhile pyWs).drop 7).dropWhile
          (fun c => c ≠ '\n') = ['\n'] then
        s.take i ++ ['\n']
      else s.take (i + 1) ++ step4 (s.drop (i + 1))
    else s.take (i + 1) ++ step4 (s.drop (i + 1))
termination_by s.length
decreasing_by
  · have hi : i < s.length := by
      have := findCS_some_lt (("</body>").data) (lcList s) i h1
      simpa [lcList] using this
    simp only [List.length_drop]
    omega
  · have hi : i < s.length := by
      have := findCS_some_lt (("</body>").data) (lcList s) i h1
      simpa [lcList] using this
    simp only [List.length_drop]
    omega

/-- The HTML skeleton `prepare_satellite_content` wraps around content that
does not already start with a doctype (src/auto_deploy.py:1501-1511). -/
def wrap_skeleton (stem c : List Char) : List Char :=
  ("<!DOCTYPE html>\n<html lang=\"zh-CN\">\n<head>\n    <meta charset=\"UTF-8\">\n    <meta name=\"viewport\" content=\"width=device-width, initial-scale=1.0\">\n    <title>").data ++
    stem ++ ("</title>\n</head>\n<body>\n").data ++ c ++ ("\n</body>\n</html>").data

/-- The per-article transformation of `prepare_satellite_content`
(src/auto_deploy.py:1486-1515): strip old footers, clean stray
body/html closings, wrap bare content in the skeleton, drop the trailing
`</body></html>` region, then append the freshly generated footer followed
by `</body></html>`. -/
def prepare_article (stem footer content : List Char) : List Char :=
  pyStrip (step4
    (if startsCI (("<!doctype html").data) (pyStrip (step2 (removeFooters content)))
     then step2 (removeFooters content)
     else wrap_skeleton stem (step2 (removeFooters content)))) ++
  ("\n").data ++ footer ++ ("\n</body></html>").data

/-- Decimal digit character. -/
def digitChar (n : Nat) : Char := Char.ofNat (48 + n)

/-- Decimal rendering of a natural number (Python `f"{n}"`). -/
def natToChars (n : Nat) : List Char :=
  if n < 10 then [digitChar n]
  else natToChars (n / 10) ++ [digitChar (n % 10)]
termination_by n
decreasing_by
  exact Nat.div_lt_self (by omega) (by omega)

/-- The final path component (Python `Path(link).name`). -/
def path_last_component (l : List Char) : List Char :=
  (l.reverse.takeWhile (fun c => c ≠ '/')).reverse

/-- Python `Path(link).stem`: the final component without its suffix; a
suffix exists only when the last dot is neither the first nor the last
character of the name. -/
def path_stem (l : List Char) : List Char :=
  if (path_last_component l).reverse.takeWhile (fun c => c ≠ '.') =
      (path_last_component l).reverse then
    path_last_component l
  else if 0 < (path_last_component l).length - 1 -
        ((path_last_component l).reverse.takeWhile (fun c => c ≠ '.')).length ∧
      (path_last_component l).length - 1 -
        ((path_last_component l).reverse.takeWhile (fun c => c ≠ '.')).length <
        (path_last_component l).length - 1 then
    (path_last_component l).take ((path_last_component l).length - 1 -
      ((path_last_component l).reverse.takeWhile (fun c => c ≠ '.')).length)
  else path_last_component l

/-- One `<li>` line of the link-wheel footer (src/auto_deploy.py:1442-1451):
external links get `rel=nofollow` and a random reading-suggestion text,
local files are linked by stem with a random topic text. -/
def footer_item (link : List Char) (n : Nat) : List Char :=
  if startsCS (("http").data) link then
    ("<li><a href=").data ++ [sqChar] ++ link ++ [sqChar] ++ (" rel=").data ++
      [sqChar] ++ ("nofollow").data ++ [sqChar] ++ (">推荐阅读 ").data ++
      natToChars n ++ ("</a></li>\n").data
  else
    ("<li><a href=").data ++ [sqChar] ++ ("./").data ++ path_stem link ++
      ((".html").data) ++ [sqChar] ++ (">相关主题 ").data ++ natToChars n ++
      ("</a></li>\n").data

/-- The item lines of the footer, one random number consumed per link. -/
def footer_items : List (List Char) → List Nat → List Char
  | [], _ => []
  | l :: ls, rands => footer_item l (rands.headD 0) ++ footer_items ls (rands.tail)

/-- Embedding of `generate_footer_html` (src/auto_deploy.py:1439-1453). -/
def generate_footer_html (links : List (List Char)) (rands : List Nat) : List Char :=
  ("\n<footer class=").data ++ [sqChar] ++ ("link-wheel").data ++ [sqChar] ++
    (">\n<h3>相关链接</h3>\n<ul>\n").data ++ footer_items links rands ++
    ("</ul>\n</footer>\n").data

theorem dropWhile_idem (p : α → Bool) (l : List α) :
    (l.dropWhile p).dropWhile p = l.dropWhile p := by
  induction l with
  | nil => rfl
  | cons c r ih =>
    cases hc : p c with
    | true => simp [List.dropWhile_cons, hc, ih]
    | false => simp [List.dropWhile_cons, hc]

theorem stripLeft_cons_of_not_ws (c : Char) (r : List Char) (h : pyWs c = false) :
    stripLeft (c :: r) = c :: r := by
  simp [stripLeft, List.dropWhile_cons, h]

theorem stripRight_eq_of_getLast (l : List Char)
    (h : ∀ c, l.getLast? = some c → pyWs c = false) : stripRight l = l := by
  unfold stripRight
  cases hr : l.reverse with
  | nil =>
    simp only [List.dropWhile_nil]
    rw [← hr, List.reverse_reverse]
  | cons c t =>
    have hc : l.getLast? = some c := by
      rw [List.getLast?_eq_head?_reverse, hr]
      rfl
    rw [List.dropWhile_cons, h c hc]
    simp only [Bool.false_eq_true, if_false]
    rw [← hr, List.reverse_reverse]

theorem stripRight_append_ws (a w : List Char) (h : ∀ c ∈ w, pyWs c = true) :
    stripRight (a ++ w) = stripRight a := by
  unfold stripRight
  rw [List.reverse_append, List.dropWhile_append_of_pos]
  intro c hc
  exact h c (List.mem_reverse.mp hc)

theorem stripRight_append_of_ne (a b : List Char) (h : stripRight b ≠ []) :
    stripRight (a ++ b) = a ++ stripRight b := by
  unfold stripRight at *
  rw [List.reverse_append, List.dropWhile_append]
  have hne : (b.reverse.dropWhile pyWs).isEmpty = false := by
    cases he : b.reverse.dropWhile pyWs with
    | nil => exact absurd (by rw [he]; rfl) h
    | cons x t => rfl
  rw [hne]
  simp only [Bool.false_eq_true, if_false]
  rw [List.reverse_append, List.reverse_reverse]

theorem stripRight_idem (l : List Char) : stripRight (stripRight l) = stripRight l := by
  unfold stripRight
  rw [List.reverse_reverse, dropWhile_idem]

theorem toLower_ws (c : Char) (h : pyWs c = true) : c.toLower = c := by
  simp only [pyWs, Bool.or_eq_true, decide_eq_true_eq] at h
  rcases h with ((((h | h) | h) | h) | h) | h <;> subst h <;> decide

theorem lcList_append (a b : List Char) : lcList (a ++ b) = lcList a ++ lcList b :=
  List.map_append _ _ _

theorem length_lcList (a : List Char) : (lcList a).length = a.length :=
  List.length_map _ _

theorem countCS_zero_iff_all (pat : List Char) (hpat : pat ≠ []) :
    ∀ s : List Char, countCS pat s = 0 ↔ ∀ i, startsCS pat (s.drop i) = false := by
  intro s
  induction s with
  | nil =>
    simp only [countCS, List.drop_nil, true_iff]
    intro i
    refine startsCS_of_short pat [] ?_
    cases pat with
    | nil => exact absurd rfl hpat
    | cons p ps => simp
  | cons c rest ih =>
    rw [countCS_cons]
    constructor
    · intro h i
      cases i with
      | zero =>
        simp only [List.drop]
        cases hs : startsCS pat (c :: rest) with
        | false => rfl
        | true => rw [hs] at h; simp at h
      | succ j =>
        have hr : countCS pat rest = 0 := by omega
        exact (ih.mp hr) j
    · intro h
      have h0 := h 0
      simp only [List.drop] at h0
      rw [h0]
      simp only [Bool.false_eq_true, if_false]
      have hr : countCS pat rest = 0 := ih.mpr (fun j => h (j + 1))
      omega

theorem countCS_zero_of_suffix (pat s' s : List Char) (hpat : pat ≠ [])
    (h : s' <:+ s) (hz : countCS pat s = 0) : countCS pat s' = 0 := by
  obtain ⟨u, hu⟩ := h
  rw [countCS_zero_iff_all pat hpat] at hz ⊢
  intro i
  have := hz (u.length + i)
  rw [← hu, List.drop_append] at this
  exact this

theorem countCS_zero_of_prefix (pat s' s : List Char) (hpat : pat ≠ [])
    (h : s' <+: s) (hz : countCS pat s = 0) : countCS pat s' = 0 := by
  rw [countCS_zero_iff_all pat hpat] at hz ⊢
  intro i
  cases hs : startsCS pat (s'.drop i) with
  | false => rfl
  | true =>
    exfalso
    obtain ⟨u, hu⟩ := h
    have hp := List.isPrefixOf_iff_prefix.mp hs
    have hp2 : pat <+: s.drop i := by
      refine hp.trans ?_
      rw [← hu, List.drop_append_eq_append_drop]
      exact List.prefix_append _ _
    have hfalse := hz i
    have htrue : startsCS pat (s.drop i) = true := List.isPrefixOf_iff_prefix.mpr hp2
    rw [htrue] at hfalse
    exact Bool.noConfusion hfalse

theorem countCI_zero_of_suffix (pat s' s : List Char) (hpat : pat ≠ [])
    (h : s' <:+ s) (hz : countCI pat s = 0) : countCI pat s' = 0 :=
  countCS_zero_of_suffix pat _ _ hpat (List.IsSuffix.map Char.toLower h) hz

theorem countCI_zero_of_prefix (pat s' s : List Char) (hpat : pat ≠ [])
    (h : s' <+: s) (hz : countCI pat s = 0) : countCI pat s' = 0 :=
  countCS_zero_of_prefix pat _ _ hpat (List.IsPrefix.map Char.toLower h) hz

theorem stripLeft_suffix (l : List Char) : stripLeft l <:+ l :=
  List.dropWhile_suffix pyWs

theorem stripRight_prefixOf (l : List Char) : stripRight l <+: l := by
  have h : l.reverse.dropWhile pyWs <:+ l.reverse := List.dropWhile_suffix pyWs
  obtain ⟨u, hu⟩ := h
  refine ⟨u.reverse, ?_⟩
  have := congrArg List.reverse hu
  rw [List.reverse_append, List.reverse_reverse] at this
  rw [stripRight]
  exact this

theorem countCI_zero_pyStrip (pat s : List Char) (hpat : pat ≠ [])
    (hz : countCI pat s = 0) : countCI pat (pyStrip s) = 0 := by
  unfold pyStrip
  exact countCI_zero_of_prefix pat _ _ hpat (stripRight_prefixOf _)
    (countCI_zero_of_suffix pat _ _ hpat (stripLeft_suffix _) hz)

theorem startsCI_append_left (pat a b : List Char) (h : pat.length ≤ a.length) :
    startsCI pat (a ++ b) = startsCI pat a := by
  unfold startsCI
  rw [lcList_append]
  exact startsCS_append_left pat (lcList a) (lcList b) (by rw [length_lcList]; exact h)

theorem startsCI_length_le (pat s : List Char) (h : startsCI pat s = true) :
    pat.length ≤ s.length := by
  have hp := List.isPrefixOf_iff_prefix.mp h
  have := List.IsPrefix.length_le hp
  rwa [length_lcList] at this

theorem findCI_some_zero (pat s : List Char) (hpat : pat ≠ [])
    (h : startsCI pat s = true) : findCI pat s = some 0 := by
  unfold findCI
  refine findCS_some_zero pat (lcList s) hpat h

theorem findCI_cons_shift (pat : List Char) (c : Char) (r : List Char)
    (hfalse : startsCI pat (c :: r) = false) :
    findCI pat (c :: r) = (findCI pat r).map (· + 1) := by
  unfold findCI
  show findCS pat (c.toLower :: lcList r) = _
  rw [findCS]
  have : startsCS pat (c.toLower :: lcList r) = false := hfalse
  rw [this]
  simp

theorem findCI_append_right (pat a b : List Char) (hc : countCI pat a = 0)
    (hstr : noStr pat (lcList a) (lcList b)) :
    findCI pat (a ++ b) = (findCI pat b).map (· + a.length) := by
  unfold findCI
  rw [lcList_append, findCS_append_left_clean pat _ _ hc hstr, length_lcList]

theorem countCI_append_split (pat a b : List Char)
    (hstr : noStr pat (lcList a) (lcList b)) :
    countCI pat (a ++ b) = countCI pat a + countCI pat b := by
  unfold countCI
  rw [lcList_append]
  exact countCS_append pat _ _ hstr

theorem countCI_append_drop_left (pat a b : List Char) (c0 : Char)
    (hp : pat.head? = some c0) (ha : c0 ∉ lcList a) :
    countCI pat (a ++ b) = countCI pat b := by
  unfold countCI
  rw [lcList_append]
  exact countCS_append_of_head_notMem pat c0 _ _ hp ha

theorem removeFooters_of_clean (s : List Char)
    (h : countCI (("<footer").data) s = 0) : removeFooters s = s := by
  have hf : findCI (("<footer").data) s = none := (findCS_none_iff _ _).mpr h
  unfold removeFooters
  split
  · rfl
  · rename_i i heq
    rw [heq] at hf
    exact absurd hf (by simp)

theorem step2_of_clean (s : List Char)
    (h : countCI (("</body>").data) s = 0) : step2 s = s := by
  have hf : findCI (("</body>").data) s = none := (findCS_none_iff _ _).mpr h
  unfold step2
  split
  · rfl
  · rename_i i heq
    rw [heq] at hf
    exact absurd hf (by simp)

theorem step4_of_clean (s : List Char)
    (h : countCI (("</body>").data) s = 0) : step4 s = s := by
  have hf : findCI (("</body>").data) s = none := (findCS_none_iff _ _).mpr h
  unfold step4
  split
  · rfl
  · rename_i i heq
    rw [heq] at hf
    exact absurd hf (by simp)

theorem noStr_of_getLast_known (pat a b : List Char) (c0 : Char)
    (hg : a.getLast? = some c0)
    (hk : ∀ j, j < pat.length - 1 → pat.get? j ≠ some c0) : noStr pat a b := by
  refine noStr_of_getLast pat a b ?_
  intro c hc j hj
  rw [hg] at hc
  cases hc
  exact hk j (by omega)

theorem noStr_of_head_known (pat a b : List Char) (c0 : Char)
    (hh : b.head? = some c0)
    (hk : ∀ j, j < pat.length → 0 < j → pat.get? j ≠ some c0) : noStr pat a b := by
  refine noStr_of_head pat a b ?_
  intro c hc j hj hlt
  rw [hh] at hc
  cases hc
  exact hk j hlt hj

/-- The three text blocks of the wrap skeleton. -/
def wl1 : List Char :=
  ("<!DOCTYPE html>\n<html lang=\"zh-CN\">\n<head>\n    <meta charset=\"UTF-8\">\n    <meta name=\"viewport\" content=\"width=device-width, initial-scale=1.0\">\n    <title>").data

def wl2 : List Char := ("</title>\n</head>\n<body>\n").data

def wl3 : List Char := ("\n</body>\n</html>").data

theorem wrap_skeleton_eq (stem c : List Char) :
    wrap_skeleton stem c = wl1 ++ stem ++ wl2 ++ c ++ wl3 := rfl

theorem step4_wrap (stem c : List Char)
    (hstem : '<' ∉ lcList stem)
    (hc : countCI (("</body>").data) c = 0) :
    step4 (wrap_skeleton stem c) = wl1 ++ stem ++ wl2 ++ c ++ ['\n'] := by
  have hW : wrap_skeleton stem c = (wl1 ++ stem ++ wl2 ++ c) ++ wl3 := by
    rw [wrap_skeleton_eq]
  have hfind : findCI (("</body>").data) (wrap_skeleton stem c) =
      some ((wl1 ++ stem ++ wl2 ++ c).length + 1) := by
    rw [wrap_skeleton_eq]
    simp only [List.append_assoc]
    rw [findCI_append_right (("</body>").data) wl1 _ (by decide)
      (noStr_of_getLast_known _ _ _ '>' (by decide) (by decide))]
    rw [findCI_append_right (("</body>").data) stem _
      (countCS_eq_zero_of_head_notMem _ '<' (by decide) _ hstem)
      (noStr_of_head_notMem _ '<' _ _ (by decide) hstem)]
    rw [findCI_append_right (("</body>").data) wl2 _ (by decide)
      (noStr_of_getLast_known _ _ _ '\n' (by decide) (by decide))]
    rw [findCI_append_right (("</body>").data) c _ hc
      (noStr_of_head_known _ _ _ '\n' (by decide) (by decide))]
    rw [(by decide : findCI (("</body>").data) wl3 = some 1)]
    simp only [Option.map_some', Option.some.injEq, List.length_append]
    omega
  unfold step4
  split
  · rename_i heq
    rw [hfind] at heq
    exact absurd heq (by simp)
  · rename_i i heq
    rw [hfind] at heq
    have hi : i = (wl1 ++ stem ++ wl2 ++ c).length + 1 := (Option.some.inj heq).symm
    subst hi
    have hdrop : (wrap_skeleton stem c).drop
        ((wl1 ++ stem ++ wl2 ++ c).length + 1 + 7) = ("\n</html>").data := by
      rw [hW]
      have harith : (wl1 ++ stem ++ wl2 ++ c).length + 1 + 7 =
          (wl1 ++ stem ++ wl2 ++ c).length + 8 := by omega
      rw [harith, List.drop_append]
      decide
    rw [hdrop]
    rw [(by decide : (("\n</html>").data).dropWhile pyWs = ("</html>").data)]
    rw [if_pos (by decide)]
    rw [(by decide : (("</html>").data).drop 7 = ([] : List Char))]
    rw [if_pos (by decide)]
    rw [hW, List.take_append]
    rw [(by decide : wl3.take 1 = ['\n'])]

/-- The shape invariant of the page body that `prepare_article` puts in
front of the generated footer: free of footer tags and of `</body>`,
doctype-prefixed, and already right-stripped. -/
def goodX (X : List Char) : Prop :=
  countCI (("<footer").data) X = 0 ∧
  countCI (("</footer>").data) X = 0 ∧
  countCI (("</body>").data) X = 0 ∧
  startsCI (("<!doctype html").data) X = true ∧
  stripRight X = X

theorem stripLeft_eq_self_of_head (l : List Char)
    (h : ∀ x, l.head? = some x → pyWs x = false) : stripLeft l = l := by
  cases l with
  | nil => rfl
  | cons x r => exact stripLeft_cons_of_not_ws x r (h x rfl)

theorem startsCI_head_not_ws (pat X : List Char) (p0 : Char)
    (hp : pat.head? = some p0) (hpw : pyWs p0 = false)
    (h : startsCI pat X = true) : ∀ x, X.head? = some x → pyWs x = false := by
  intro x hx
  cases X with
  | nil => exact absurd hx (by simp)
  | cons y Y =>
    have hxy : y = x := by simpa using hx
    subst hxy
    cases pat with
    | nil => exact absurd hp (by simp)
    | cons q qs =>
      have hq : q = p0 := by simpa using hp
      subst hq
      have hbeq : (q == y.toLower) = true := by
        have : startsCS (q :: qs) (y.toLower :: lcList Y) = true := h
        simp only [startsCS, List.isPrefixOf, Bool.and_eq_true] at this
        exact this.1
      have heq : q = y.toLower := by simpa using hbeq
      cases hws : pyWs y with
      | false => rfl
      | true =>
        exfalso
        rw [toLower_ws y hws] at heq
        rw [heq] at hpw
        rw [hws] at hpw
        exact Bool.noConfusion hpw

theorem stripRight_eq_nil_all_ws (c : List Char) (h : stripRight c = []) :
    ∀ ch ∈ c, pyWs ch = true := by
  intro ch hch
  unfold stripRight at h
  rw [List.reverse_eq_nil_iff] at h
  rw [List.dropWhile_eq_nil_iff] at h
  exact h ch (List.mem_reverse.mpr hch)

theorem startsCI_doct_chain (stem z : List Char) :
    startsCI (("<!doctype html").data) ((wl1 ++ stem) ++ z) = true := by
  have h14 : (("<!doctype html").data).length ≤ (wl1 ++ stem).length := by
    rw [List.length_append]
    have : (("<!doctype html").data).length ≤ wl1.length := by decide
    omega
  rw [startsCI_append_left _ _ _ h14]
  have h14b : (("<!doctype html").data).length ≤ wl1.length := by decide
  rw [startsCI_append_left _ _ _ h14b]
  decide

theorem prepare_article_structure (stem footer c : List Char)
    (hstem : '<' ∉ lcList stem)
    (h1 : countCI (("<footer").data) c = 0)
    (h2 : countCI (("</footer>").data) c = 0)
    (h3 : countCI (("</body>").data) c = 0) :
    ∃ X, goodX X ∧
      prepare_article stem footer c =
        X ++ ("\n").data ++ footer ++ ("\n</body></html>").data := by
  unfold prepare_article
  rw [removeFooters_of_clean c h1, step2_of_clean c h3]
  by_cases hdoc : startsCI (("<!doctype html").data) (pyStrip c) = true
  · rw [if_pos hdoc, step4_of_clean c h3]
    refine ⟨pyStrip c, ⟨?_, ?_, ?_, hdoc, ?_⟩, rfl⟩
    · exact countCI_zero_pyStrip _ _ (by decide) h1
    · exact countCI_zero_pyStrip _ _ (by decide) h2
    · exact countCI_zero_pyStrip _ _ (by decide) h3
    · unfold pyStrip
      exact stripRight_idem _
  · rw [if_neg hdoc, step4_wrap stem c hstem h3]
    have hYcounts : ∀ pat : List Char, pat.head? = some '<' →
        countCI pat wl1 = 0 → countCI pat wl2 = 0 →
        (∀ j, j < pat.length - 1 → pat.get? j ≠ some '>') →
        (∀ j, j < pat.length - 1 → pat.get? j ≠ some '\n') →
        (∀ j, j < pat.length → 0 < j → pat.get? j ≠ some '\n') →
        countCI pat c = 0 →
        countCI pat (wl1 ++ stem ++ wl2 ++ c ++ ['\n']) = 0 := by
      intro pat hph hw1 hw2 hgt hnl hnl2 hcc
      have e : wl1 ++ stem ++ wl2 ++ c ++ ['\n'] =
          wl1 ++ (stem ++ (wl2 ++ (c ++ ['\n']))) := by
        simp [List.append_assoc]
      rw [e]
      rw [countCI_append_split pat wl1 _
        (noStr_of_getLast_known _ _ _ '>' (by decide) hgt)]
      rw [countCI_append_drop_left pat stem _ '<' hph hstem]
      rw [countCI_append_split pat wl2 _
        (noStr_of_getLast_known _ _ _ '\n' (by decide) hnl)]
      rw [countCI_append_split pat c _
        (noStr_of_head_known _ _ _ '\n' (by decide) hnl2)]
      have hnlz : countCI pat ['\n'] = 0 := by
        unfold countCI
        rw [(by decide : lcList ['\n'] = ['\n'])]
        rw [countCS_cons]
        have : startsCS pat ['\n'] = false := by
          cases pat with
          | nil => exact absurd hph (by simp)
          | cons q qs =>
            have hq : q = '<' := by simpa using hph
            subst hq
            cases qs with
            | nil => decide
            | cons q2 qs2 =>
              refine startsCS_of_short _ _ ?_
              simp only [List.length_cons, List.length_nil]
              omega
        rw [this]
        simp [countCS]
      rw [hw1, hw2, hcc, hnlz]
    have hc1 : countCI (("<footer").data) (wl1 ++ stem ++ wl2 ++ c ++ ['\n']) = 0 :=
      hYcounts _ (by decide) (by decide) (by decide) (by decide) (by decide) (by decide) h1
    have hc2 : countCI (("</footer>").data) (wl1 ++ stem ++ wl2 ++ c ++ ['\n']) = 0 :=
      hYcounts _ (by decide) (by decide) (by decide) (by decide) (by decide) (by decide) h2
    have hc3 : countCI (("</body>").data) (wl1 ++ stem ++ wl2 ++ c ++ ['\n']) = 0 :=
      hYcounts _ (by decide) (by decide) (by decide) (by decide) (by decide) (by decide) h3
    have hw1c : wl1 = '<' :: wl1.tail := by decide
    have hheads : ∀ x, (wl1 ++ stem ++ wl2 ++ c ++ ['\n']).head? = some x →
        pyWs x = false := by
      intro x hx
      have he : wl1 ++ stem ++ wl2 ++ c ++ ['\n'] =
          '<' :: (wl1.tail ++ stem ++ wl2 ++ c ++ ['\n']) := by
        conv_lhs => rw [hw1c]
        simp [List.cons_append]
      rw [he] at hx
      simp only [List.head?_cons, Option.some.injEq] at hx
      subst hx
      decide
    have hsl : stripLeft (wl1 ++ stem ++ wl2 ++ c ++ ['\n']) =
        wl1 ++ stem ++ wl2 ++ c ++ ['\n'] :=
      stripLeft_eq_self_of_head _ hheads
    refine ⟨pyStrip (wl1 ++ stem ++ wl2 ++ c ++ ['\n']), ⟨?_, ?_, ?_, ?_, ?_⟩, rfl⟩
    · exact countCI_zero_pyStrip _ _ (by decide) hc1
    · exact countCI_zero_pyStrip _ _ (by decide) hc2
    · exact countCI_zero_pyStrip _ _ (by decide) hc3
    · unfold pyStrip
      rw [hsl]
      rw [stripRight_append_ws (wl1 ++ stem ++ wl2 ++ c) ['\n'] (by decide)]
      by_cases hcs : stripRight c = []
      · rw [stripRight_append_ws (wl1 ++ stem ++ wl2) c (stripRight_eq_nil_all_ws c hcs)]
        rw [stripRight_append_of_ne (wl1 ++ stem) wl2 (by decide)]
        exact startsCI_doct_chain stem _
      · rw [stripRight_append_of_ne (wl1 ++ stem ++ wl2) c hcs]
        rw [List.append_assoc (wl1 ++ stem) wl2 (stripRight c)]
        exact startsCI_doct_chain stem _
    · unfold pyStrip
      exact stripRight_idem _

theorem natToChars_digits (n : Nat) : ∀ c ∈ natToChars n, ∃ d, d < 10 ∧ c = digitChar d := by
  induction n using Nat.strong_induction_on with
  | _ n ih =>
    intro c hc
    unfold natToChars at hc
    by_cases hn : n < 10
    · rw [if_pos hn] at hc
      simp only [List.mem_singleton] at hc
      exact ⟨n, hn, hc⟩
    · rw [if_neg hn] at hc
      rw [List.mem_append] at hc
      cases hc with
      | inl h => exact ih (n / 10) (Nat.div_lt_self (by omega) (by omega)) c h
      | inr h =>
        simp only [List.mem_singleton] at h
        exact ⟨n % 10, Nat.mod_lt _ (by omega), h⟩

theorem lt_not_mem_lc_natToChars (n : Nat) : '<' ∉ lcList (natToChars n) := by
  intro hmem
  simp only [lcList, List.mem_map] at hmem
  obtain ⟨c, hc, hlc⟩ := hmem
  obtain ⟨d, hd, rfl⟩ := natToChars_digits n c hc
  interval_cases d <;> exact absurd hlc (by decide)

theorem path_stem_subset (l : List Char) : ∀ c ∈ path_stem l, c ∈ l := by
  have hplc : ∀ c ∈ path_last_component l, c ∈ l := by
    intro c hc
    unfold path_last_component at hc
    rw [List.mem_reverse] at hc
    have h2 : c ∈ l.reverse := (List.takeWhile_sublist _).subset hc
    exact List.mem_reverse.mp h2
  intro c hc
  unfold path_stem at hc
  split at hc
  · exact hplc c hc
  · split at hc
    · exact hplc c (List.take_subset _ _ hc)
    · exact hplc c hc

theorem not_mem_lcList_subset (x : Char) (a b : List Char)
    (hsub : ∀ c ∈ a, c ∈ b) (h : x ∉ lcList b) : x ∉ lcList a := by
  intro hx
  apply h
  simp only [lcList, List.mem_map] at hx ⊢
  obtain ⟨c, hc, hlc⟩ := hx
  exact ⟨c, hsub c hc, hlc⟩

theorem lc_head_cons (x : Char) (W : List Char) :
    (lcList (x :: W)).head? = some x.toLower := by
  simp [lcList]

theorem noStr_head_lit (pat a : List Char) (x : Char) (A W : List Char)
    (hA : A = x :: A.tail)
    (hk : ∀ j, j < pat.length → 0 < j → pat.get? j ≠ some x.toLower) :
    noStr pat a (lcList (A ++ W)) := by
  refine noStr_of_head_known pat a _ x.toLower ?_ hk
  rw [hA, List.cons_append]
  exact lc_head_cons x _

theorem noStr_of_head_pos (pat a b : List Char) (p0 : Char)
    (hp : pat.head? = some p0)
    (hpos : ∀ i, i < a.length → a.length < i + pat.length → a.get? i ≠ some p0) :
    noStr pat a b := by
  intro i hi hlen
  cases hs : startsCS pat ((a ++ b).drop i) with
  | false => rfl
  | true =>
    exfalso
    have hp2 := List.isPrefixOf_iff_prefix.mp hs
    rw [List.prefix_iff_eq_take] at hp2
    have hj : pat.get? 0 = ((a ++ b).drop i).get? 0 := by
      rw [hp2, List.get?_take]
      cases pat with
      | nil => exact absurd hp (by simp)
      | cons q qs => simp
    rw [List.get?_drop] at hj
    have h0 : pat.get? 0 = some p0 := by
      cases pat with
      | nil => exact absurd hp (by simp)
      | cons q qs => simpa using hp
    rw [h0] at hj
    rw [Nat.add_zero] at hj
    rw [List.get?_append hi] at hj
    exact hpos i hi hlen hj.symm

/-- The opening piece of a footer `<li>` line up to the quote before the
link target (external-link branch). -/
def fiB1 : List Char := ("<li><a href=").data ++ [sqChar]

/-- The middle piece of an external-link footer line, from the closing
quote of the target to the reading-suggestion text. -/
def fiB2 : List Char :=
  [sqChar] ++ (" rel=").data ++ [sqChar] ++ ("nofollow").data ++ [sqChar] ++
    (">推荐阅读 ").data

/-- The closing piece of a footer `<li>` line. -/
def fiB3 : List Char := ("</a></li>\n").data

/-- The opening piece of an internal-link footer line up to `./`. -/
def fiC1 : List Char := ("<li><a href=").data ++ [sqChar] ++ ("./").data

/-- The middle piece of an internal-link footer line, from `.html` to the
related-topic text. -/
def fiC3 : List Char := (".html").data ++ [sqChar] ++ (">相关主题 ").data

theorem countCI_footer_item_zero (pat link : List Char) (n : Nat)
    (hph : pat.head? = some ('<'))
    (hlink : '<' ∉ lcList link)
    (hB1 : countCI pat fiB1 = 0) (hB2 : countCI pat fiB2 = 0)
    (hB3 : countCI pat fiB3 = 0) (hC1 : countCI pat fiC1 = 0)
    (hC3 : countCI pat fiC3 = 0)
    (hsq : ∀ j, j < pat.length - 1 → pat.get? j ≠ some sqChar)
    (hsp : ∀ j, j < pat.length - 1 → pat.get? j ≠ some (' '))
    (hplen : pat.length ≤ 11) :
    countCI pat (footer_item link n) = 0 := by
  have hposC : ∀ i, i < (lcList fiC1).length → (lcList fiC1).length < i + pat.length →
      (lcList fiC1).get? i ≠ some ('<') := by
    intro i hi hlen2
    have h15 : (lcList fiC1).length = 15 := by decide
    rw [h15] at hi hlen2
    have hgt : 4 < i := by omega
    have hdec : ∀ i, i < 15 → 4 < i → (lcList fiC1).get? i ≠ some ('<') := by decide
    exact hdec i hi hgt
  unfold footer_item
  by_cases hh : startsCS (("http").data) link = true
  · rw [if_pos hh]
    have hform : ("<li><a href=").data ++ [sqChar] ++ link ++ [sqChar] ++ (" rel=").data ++
        [sqChar] ++ ("nofollow").data ++ [sqChar] ++ (">推荐阅读 ").data ++
        natToChars n ++ ("</a></li>\n").data =
        fiB1 ++ (link ++ (fiB2 ++ (natToChars n ++ fiB3))) := by
      simp [fiB1, fiB2, fiB3, List.append_assoc]
    rw [hform]
    rw [countCI_append_split pat fiB1 _
      (noStr_of_getLast_known _ _ _ sqChar (by decide) hsq)]
    rw [countCI_append_drop_left pat link _ '<' hph hlink]
    rw [countCI_append_split pat fiB2 _
      (noStr_of_getLast_known _ _ _ (' ') (by decide) hsp)]
    rw [countCI_append_drop_left pat (natToChars n) _ '<' hph (lt_not_mem_lc_natToChars n)]
    rw [hB1, hB2, hB3]
  · rw [if_neg hh]
    have hform : ("<li><a href=").data ++ [sqChar] ++ ("./").data ++ path_stem link ++
        ((".html").data) ++ [sqChar] ++ (">相关主题 ").data ++ natToChars n ++
        ("</a></li>\n").data =
        fiC1 ++ (path_stem link ++ (fiC3 ++ (natToChars n ++ fiB3))) := by
      simp [fiC1, fiC3, fiB3, List.append_assoc]
    rw [hform]
    rw [countCI_append_split pat fiC1 _
      (noStr_of_head_pos _ _ _ '<' hph hposC)]
    rw [countCI_append_drop_left pat (path_stem link) _ '<' hph
      (not_mem_lcList_subset '<' _ link (path_stem_subset link) hlink)]
    rw [countCI_append_split pat fiC3 _
      (noStr_of_getLast_known _ _ _ (' ') (by decide) hsp)]
    rw [countCI_append_drop_left pat (natToChars n) _ '<' hph (lt_not_mem_lc_natToChars n)]
    rw [hC1, hC3, hB3]

theorem footer_item_getLast (l : List Char) (n : Nat) :
    (lcList (footer_item l n)).getLast? = some ('\n') := by
  unfold footer_item
  by_cases hh : startsCS (("http").data) l = true
  · rw [if_pos hh]
    simp only [lcList_append, List.getLast?_append]
    rw [(by decide : (lcList (("</a></li>\n").data)).getLast? = some ('\n'))]
    rfl
  · rw [if_neg hh]
    simp only [lcList_append, List.getLast?_append]
    rw [(by decide : (lcList (("</a></li>\n").data)).getLast? = some ('\n'))]
    rfl

theorem countCI_footer_items_zero (pat : List Char) (links : List (List Char))
    (rands : List Nat)
    (hph : pat.head? = some ('<'))
    (hlinks : ∀ l ∈ links, '<' ∉ lcList l)
    (hB1 : countCI pat fiB1 = 0) (hB2 : countCI pat fiB2 = 0)
    (hB3 : countCI pat fiB3 = 0) (hC1 : countCI pat fiC1 = 0)
    (hC3 : countCI pat fiC3 = 0)
    (hsq : ∀ j, j < pat.length - 1 → pat.get? j ≠ some sqChar)
    (hsp : ∀ j, j < pat.length - 1 → pat.get? j ≠ some (' '))
    (hplen : pat.length ≤ 11)
    (hnl : ∀ j, j < pat.length - 1 → pat.get? j ≠ some ('\n')) :
    countCI pat (footer_items links rands) = 0 := by
  revert hlinks
  induction links generalizing rands with
  | nil => intro _; rfl
  | cons l ls ih =>
    intro hlinks
    show countCI pat (footer_item l (rands.headD 0) ++ footer_items ls rands.tail) = 0
    rw [countCI_append_split pat _ _
      (noStr_of_getLast_known _ _ _ ('\n') (footer_item_getLast l _) hnl)]
    rw [countCI_footer_item_zero pat l _ hph (hlinks l (List.mem_cons_self l ls))
      hB1 hB2 hB3 hC1 hC3 hsq hsp hplen]
    rw [ih rands.tail (fun x hx => hlinks x (List.mem_cons_of_mem _ hx))]

theorem removeFooters_step (s : List Char) (i j : Nat)
    (h1 : findCI (("<footer").data) s = some i)
    (h2 : findCI (("</footer>").data) (s.drop (i + 7)) = some j) :
    removeFooters s = s.take i ++ removeFooters ((s.drop (i + 7)).drop (j + 9)) := by
  rw [removeFooters.eq_def s]
  split
  · rename_i heq
    rw [heq] at h1
    exact absurd h1 (by simp)
  · rename_i i2 heq
    rw [heq] at h1
    have hi : i2 = i := by simpa using h1
    subst hi
    rw [h2]

theorem step2_step_plain (s : List Char) (i : Nat)
    (h1 : findCI (("</body>").data) s = some i)
    (hhtml : startsCI (("</html>").data) ((s.drop (i + 7)).dropWhile pyWs) = true)
    (hnofoot : (startsCI (("<footer>").data)
        ((((s.drop (i + 7)).dropWhile pyWs).drop 7).dropWhile pyWs) ||
      startsCI (("</body>").data)
        ((((s.drop (i + 7)).dropWhile pyWs).drop 7).dropWhile pyWs)) = false) :
    step2 s = s.take (i + 1) ++ step2 (s.drop (i + 1)) := by
  rw [step2.eq_def s]
  split
  · rename_i heq
    rw [heq] at h1
    exact absurd h1 (by simp)
  · rename_i i2 heq
    rw [heq] at h1
    have hi : i2 = i := by simpa using h1
    subst hi
    rw [if_pos hhtml, if_neg (by rw [hnofoot]; simp)]

theorem step4_take (s : List Char) (i : Nat)
    (h1 : findCI (("</body>").data) s = some i)
    (hhtml : startsCI (("</html>").data) ((s.drop (i + 7)).dropWhile pyWs) = true)
    (hall : (((s.drop (i + 7)).dropWhile pyWs).drop 7).all (fun c => c ≠ '\n') = true) :
    step4 s = s.take i := by
  unfold step4
  split
  · rename_i heq
    rw [heq] at h1
    exact absurd h1 (by simp)
  · rename_i i2 heq
    rw [heq] at h1
    have hi : i2 = i := by simpa using h1
    subst hi
    rw [if_pos hhtml, if_pos hall]

theorem goodX_head (X W : List Char) (hX : goodX X) :
    ∀ x, (X ++ W).head? = some x → pyWs x = false := by
  intro x hx
  cases X with
  | nil => exact absurd hX.2.2.2.1 (by decide)
  | cons x0 X2 =>
    have hx0 : x0 = x := by
      simp only [List.cons_append, List.head?_cons, Option.some.injEq] at hx
      exact hx
    subst hx0
    exact startsCI_head_not_ws _ _ '<' (by decide) (by decide) hX.2.2.2.1 x0 rfl

theorem goodX_strip (X W : List Char) (hX : goodX X) (hW : ∀ c ∈ W, pyWs c = true) :
    pyStrip (X ++ W) = X := by
  unfold pyStrip
  rw [stripLeft_eq_self_of_head _ (goodX_head X W hX)]
  rw [stripRight_append_ws X W hW]
  exact hX.2.2.2.2

/-- The fixed piece of the link-wheel footer between `<footer` and the
item lines. -/
def fhPre : List Char :=
  (" class=").data ++ [sqChar] ++ ("link-wheel").data ++ [sqChar] ++
    (">\n<h3>相关链接</h3>\n<ul>\n").data

theorem gfh_atoms (links : List (List Char)) (rands : List Nat) :
    generate_footer_html links rands =
      ['\n'] ++ (("<footer").data ++ (fhPre ++ (footer_items links rands ++
        (("</ul>\n").data ++ (("</footer>").data ++ ("\n").data))))) := by
  unfold generate_footer_html
  rw [(by decide : ("\n<footer class=").data =
    ['\n'] ++ (("<footer").data ++ (" class=").data))]
  rw [(by decide : ("</ul>\n</footer>\n").data =
    ("</ul>\n").data ++ (("</footer>").data ++ ("\n").data))]
  simp [fhPre, List.append_assoc]

theorem find_footer_in_R (X IT : List Char)
    (hX1 : countCI (("<footer").data) X = 0) :
    findCI (("<footer").data)
      (X ++ (("\n").data ++ (['\n'] ++ (("<footer").data ++ IT)))) =
      some (X.length + 2) := by
  rw [findCI_append_right (("<footer").data) X _ hX1
    (noStr_head_lit _ _ '\n' (("\n").data) _ (by decide) (by decide))]
  rw [findCI_append_right (("<footer").data) (("\n").data) _ (by decide)
    (noStr_head_lit _ _ '\n' (['\n']) _ (by decide) (by decide))]
  rw [findCI_append_right (("<footer").data) (['\n']) _ (by decide)
    (noStr_head_lit _ _ '<' (("<footer").data) _ (by decide) (by decide))]
  rw [findCI_some_zero (("<footer").data) ((("<footer").data) ++ IT) (by decide)
    (by rw [startsCI_append_left (("<footer").data) (("<footer").data) IT (by decide)]
        decide)]
  simp only [Option.map_some', Option.some.injEq]
  have e1 : ((("\n").data) : List Char).length = 1 := by decide
  have e2 : ((['\n']) : List Char).length = 1 := by decide
  omega

theorem find_cfooter_in_rest (IT W : List Char)
    (hIT : countCI (("</footer>").data) IT = 0) :
    findCI (("</footer>").data)
      (fhPre ++ (IT ++ (("</ul>\n").data ++ (("</footer>").data ++ W)))) =
      some (IT.length + 46) := by
  rw [findCI_append_right (("</footer>").data) fhPre _ (by decide)
    (noStr_of_getLast_known _ _ _ ('\n') (by decide) (by decide))]
  rw [findCI_append_right (("</footer>").data) IT _ hIT
    (noStr_head_lit _ _ '<' (("</ul>\n").data) _ (by decide) (by decide))]
  rw [findCI_append_right (("</footer>").data) (("</ul>\n").data) _ (by decide)
    (noStr_of_getLast_known _ _ _ ('\n') (by decide) (by decide))]
  rw [findCI_some_zero (("</footer>").data) ((("</footer>").data) ++ W) (by decide)
    (by rw [startsCI_append_left (("</footer>").data) (("</footer>").data) W (by decide)]
        decide)]
  simp only [Option.map_some', Option.some.injEq]
  rw [(by decide : (fhPre : List Char).length = 40)]
  rw [(by decide : ((("</ul>\n").data) : List Char).length = 6)]
  omega

theorem find_body_in_S (X : List Char) (hX3 : countCI (("</body>").data) X = 0) :
    findCI (("</body>").data)
      ((X ++ ("\n").data ++ ['\n']) ++ (("\n").data ++ ("\n</body></html>").data)) =
      some (X.length + 4) := by
  have hform : (X ++ ("\n").data ++ ['\n']) ++ (("\n").data ++ ("\n</body></html>").data) =
      X ++ (("\n").data ++ (['\n'] ++ (("\n").data ++ ("\n</body></html>").data))) := by
    simp [List.append_assoc]
  rw [hform]
  rw [findCI_append_right (("</body>").data) X _ hX3
    (noStr_head_lit _ _ '\n' (("\n").data) _ (by decide) (by decide))]
  rw [findCI_append_right (("</body>").data) (("\n").data) _ (by decide)
    (noStr_head_lit _ _ '\n' (['\n']) _ (by decide) (by decide))]
  rw [findCI_append_right (("</body>").data) (['\n']) _ (by decide)
    (noStr_head_lit _ _ '\n' (("\n").data) _ (by decide) (by decide))]
  rw [findCI_append_right (("</body>").data) (("\n").data) _ (by decide)
    (noStr_of_head_known _ _ (lcList (("\n</body></html>").data)) ('\n')
      (by decide) (by decide))]
  rw [(by decide : findCI (("</body>").data) (("\n</body></html>").data) = some 1)]
  simp only [Option.map_some', Option.some.injEq]
  have e1 : ((("\n").data) : List Char).length = 1 := by decide
  have e2 : ((['\n']) : List Char).length = 1 := by decide
  omega

theorem removeFooters_again (X IT : List Char)
    (hX1 : countCI (("<footer").data) X = 0)
    (hIT2 : countCI (("</footer>").data) IT = 0) :
    removeFooters (X ++ (("\n").data ++ (['\n'] ++ (("<footer").data ++ (fhPre ++
      (IT ++ (("</ul>\n").data ++ (("</footer>").data ++ (("\n").data ++
        ("\n</body></html>").data))))))))) =
    (X ++ ("\n").data ++ ['\n']) ++ (("\n").data ++ ("\n</body></html>").data) := by
  have hdrop : (X ++ (("\n").data ++ (['\n'] ++ (("<footer").data ++ (fhPre ++
      (IT ++ (("</ul>\n").data ++ (("</footer>").data ++ (("\n").data ++
        ("\n</body></html>").data))))))))).drop (X.length + 2 + 7) =
      fhPre ++ (IT ++ (("</ul>\n").data ++ (("</footer>").data ++ (("\n").data ++
        ("\n</body></html>").data)))) := by
    have hg : X ++ (("\n").data ++ (['\n'] ++ (("<footer").data ++ (fhPre ++
        (IT ++ (("</ul>\n").data ++ (("</footer>").data ++ (("\n").data ++
          ("\n</body></html>").data)))))))) =
        (X ++ ("\n").data ++ ['\n'] ++ ("<footer").data) ++ (fhPre ++
          (IT ++ (("</ul>\n").data ++ (("</footer>").data ++ (("\n").data ++
            ("\n</body></html>").data))))) := by
      simp [List.append_assoc]
    have hlen : (X ++ ("\n").data ++ ['\n'] ++ ("<footer").data).length =
        X.length + 2 + 7 := by
      simp only [fhPre, List.length_append, List.length_cons, List.length_nil]
      try omega
    rw [hg, ← hlen, List.drop_left]
  have htake : (X ++ (("\n").data ++ (['\n'] ++ (("<footer").data ++ (fhPre ++
      (IT ++ (("</ul>\n").data ++ (("</footer>").data ++ (("\n").data ++
        ("\n</body></html>").data))))))))).take (X.length + 2) =
      X ++ ("\n").data ++ ['\n'] := by
    have hg : X ++ (("\n").data ++ (['\n'] ++ (("<footer").data ++ (fhPre ++
        (IT ++ (("</ul>\n").data ++ (("</footer>").data ++ (("\n").data ++
          ("\n</body></html>").data)))))))) =
        (X ++ ("\n").data ++ ['\n']) ++ (("<footer").data ++ (fhPre ++
          (IT ++ (("</ul>\n").data ++ (("</footer>").data ++ (("\n").data ++
            ("\n</body></html>").data)))))) := by
      simp [List.append_assoc]
    have hlen : (X ++ ("\n").data ++ ['\n']).length = X.length + 2 := by
      simp only [fhPre, List.length_append, List.length_cons, List.length_nil]
      try omega
    rw [hg, ← hlen, List.take_left]
  have hdrop2 : (fhPre ++ (IT ++ (("</ul>\n").data ++ (("</footer>").data ++
      (("\n").data ++ ("\n</body></html>").data))))).drop (IT.length + 46 + 9) =
      ("\n").data ++ ("\n</body></html>").data := by
    have hg : fhPre ++ (IT ++ (("</ul>\n").data ++ (("</footer>").data ++
        (("\n").data ++ ("\n</body></html>").data)))) =
        (fhPre ++ IT ++ ("</ul>\n").data ++ ("</footer>").data) ++
          (("\n").data ++ ("\n</body></html>").data) := by
      simp [List.append_assoc]
    have hlen : (fhPre ++ IT ++ ("</ul>\n").data ++ ("</footer>").data).length =
        IT.length + 46 + 9 := by
      simp only [fhPre, List.length_append, List.length_cons, List.length_nil]
      try omega
    rw [hg, ← hlen, List.drop_left]
  rw [removeFooters_step _ (X.length + 2) (IT.length + 46)
    (find_footer_in_R X _ hX1) (by rw [hdrop]; exact find_cfooter_in_rest IT _ hIT2)]
  rw [hdrop, hdrop2]
  rw [removeFooters_of_clean _ (by decide)]
  rw [htake]

theorem step2_again (X : List Char) (hX : goodX X) :
    step2 ((X ++ ("\n").data ++ ['\n']) ++ (("\n").data ++ ("\n</body></html>").data)) =
    (X ++ ("\n").data ++ ['\n']) ++ (("\n").data ++ ("\n</body></html>").data) := by
  have hdropS : ((X ++ ("\n").data ++ ['\n']) ++ (("\n").data ++
      ("\n</body></html>").data)).drop (X.length + 4 + 7) = ("</html>").data := by
    have hg : (X ++ ("\n").data ++ ['\n']) ++ (("\n").data ++ ("\n</body></html>").data) =
        (X ++ ("\n").data ++ ['\n'] ++ ("\n").data ++ ("\n</body>").data) ++
          ("</html>").data := by
      rw [(by decide : ("\n</body></html>").data = ("\n</body>").data ++ ("</html>").data)]
      simp [List.append_assoc]
    have hlen : (X ++ ("\n").data ++ ['\n'] ++ ("\n").data ++ ("\n</body>").data).length =
        X.length + 4 + 7 := by
      simp only [fhPre, List.length_append, List.length_cons, List.length_nil]
      try omega
    rw [hg, ← hlen, List.drop_left]
  have hcond : startsCI (("</html>").data)
      ((((X ++ ("\n").data ++ ['\n']) ++ (("\n").data ++
        ("\n</body></html>").data)).drop (X.length + 4 + 7)).dropWhile pyWs) = true := by
    rw [hdropS]
    decide
  have hnf : (startsCI (("<footer>").data)
      ((((((X ++ ("\n").data ++ ['\n']) ++ (("\n").data ++
        ("\n</body></html>").data)).drop (X.length + 4 + 7)).dropWhile pyWs).drop
          7).dropWhile pyWs) ||
      startsCI (("</body>").data)
      ((((((X ++ ("\n").data ++ ['\n']) ++ (("\n").data ++
        ("\n</body></html>").data)).drop (X.length + 4 + 7)).dropWhile pyWs).drop
          7).dropWhile pyWs)) = false := by
    rw [hdropS]
    decide
  rw [step2_step_plain _ (X.length + 4) (find_body_in_S X hX.2.2.1) hcond hnf]
  have hg5 : (X ++ ("\n").data ++ ['\n']) ++ (("\n").data ++ ("\n</body></html>").data) =
      (X ++ ("\n").data ++ ['\n'] ++ ("\n").data ++ ("\n<").data) ++
        ("/body></html>").data := by
    rw [(by decide : ("\n</body></html>").data = ("\n<").data ++ ("/body></html>").data)]
    simp [List.append_assoc]
  have hlen5 : (X ++ ("\n").data ++ ['\n'] ++ ("\n").data ++ ("\n<").data).length =
      X.length + 4 + 1 := by
    simp only [fhPre, List.length_append, List.length_cons, List.length_nil]
    try omega
  have htk : ((X ++ ("\n").data ++ ['\n']) ++ (("\n").data ++
      ("\n</body></html>").data)).take (X.length + 4 + 1) =
      X ++ ("\n").data ++ ['\n'] ++ ("\n").data ++ ("\n<").data := by
    rw [hg5, ← hlen5, List.take_left]
  have hdp : ((X ++ ("\n").data ++ ['\n']) ++ (("\n").data ++
      ("\n</body></html>").data)).drop (X.length + 4 + 1) =
      ("/body></html>").data := by
    rw [hg5, ← hlen5, List.drop_left]
  rw [htk, hdp]
  rw [step2_of_clean _ (by decide)]
  rw [hg5]

theorem step4_again (X : List Char) (hX : goodX X) :
    step4 ((X ++ ("\n").data ++ ['\n']) ++ (("\n").data ++ ("\n</body></html>").data)) =
    X ++ ("\n").data ++ ['\n'] ++ ("\n").data ++ ("\n").data := by
  have hdropS : ((X ++ ("\n").data ++ ['\n']) ++ (("\n").data ++
      ("\n</body></html>").data)).drop (X.length + 4 + 7) = ("</html>").data := by
    have hg : (X ++ ("\n").data ++ ['\n']) ++ (("\n").data ++ ("\n</body></html>").data) =
        (X ++ ("\n").data ++ ['\n'] ++ ("\n").data ++ ("\n</body>").data) ++
          ("</html>").data := by
      rw [(by decide : ("\n</body></html>").data = ("\n</body>").data ++ ("</html>").data)]
      simp [List.append_assoc]
    have hlen : (X ++ ("\n").data ++ ['\n'] ++ ("\n").data ++ ("\n</body>").data).length =
        X.length + 4 + 7 := by
      simp only [fhPre, List.length_append, List.length_cons, List.length_nil]
      try omega
    rw [hg, ← hlen, List.drop_left]
  have hcond : startsCI (("</html>").data)
      ((((X ++ ("\n").data ++ ['\n']) ++ (("\n").data ++
        ("\n</body></html>").data)).drop (X.length + 4 + 7)).dropWhile pyWs) = true := by
    rw [hdropS]
    decide
  have hall : (((((X ++ ("\n").data ++ ['\n']) ++ (("\n").data ++
      ("\n</body></html>").data)).drop (X.length + 4 + 7)).dropWhile pyWs).drop 7).all
        (fun c => c ≠ '\n') = true := by
    rw [hdropS]
    decide
  rw [step4_take _ (X.length + 4) (find_body_in_S X hX.2.2.1) hcond hall]
  have hg4 : (X ++ ("\n").data ++ ['\n']) ++ (("\n").data ++ ("\n</body></html>").data) =
      (X ++ ("\n").data ++ ['\n'] ++ ("\n").data ++ ("\n").data) ++
        ("</body></html>").data := by
    rw [(by decide : ("\n</body></html>").data = ("\n").data ++ ("</body></html>").data)]
    simp [List.append_assoc]
  have hlen4 : (X ++ ("\n").data ++ ['\n'] ++ ("\n").data ++ ("\n").data).length =
      X.length + 4 := by
    simp only [fhPre, List.length_append, List.length_cons, List.length_nil]
    try omega
  rw [hg4, ← hlen4, List.take_left]

theorem prepare_article_again (stem2 footer2 : List Char)
    (links1 : List (List Char)) (rands1 : List Nat) (X : List Char)
    (hX : goodX X) (hlinks1 : ∀ l ∈ links1, '<' ∉ lcList l) :
    prepare_article stem2 footer2
      (X ++ ("\n").data ++ generate_footer_html links1 rands1 ++
        ("\n</body></html>").data) =
    X ++ ("\n").data ++ footer2 ++ ("\n</body></html>").data := by
  have hIT2 : countCI (("</footer>").data) (footer_items links1 rands1) = 0 :=
    countCI_footer_items_zero _ links1 rands1 (by decide) hlinks1 (by decide) (by decide)
      (by decide) (by decide) (by decide) (by decide) (by decide) (by decide) (by decide)
  have hRe : X ++ ("\n").data ++ generate_footer_html links1 rands1 ++
      ("\n</body></html>").data =
      X ++ (("\n").data ++ (['\n'] ++ (("<footer").data ++ (fhPre ++
        (footer_items links1 rands1 ++ (("</ul>\n").data ++ (("</footer>").data ++
          (("\n").data ++ ("\n</body></html>").data)))))))) := by
    rw [gfh_atoms]
    simp [List.append_assoc]
  rw [hRe]
  unfold prepare_article
  rw [removeFooters_again X (footer_items links1 rands1) hX.1 hIT2]
  rw [step2_again X hX]
  have hpsS : pyStrip ((X ++ ("\n").data ++ ['\n']) ++ (("\n").data ++
      ("\n</body></html>").data)) =
      (X ++ ("\n").data ++ ['\n']) ++ (("\n").data ++ ("\n</body></html>").data) := by
    have hform : (X ++ ("\n").data ++ ['\n']) ++ (("\n").data ++
        ("\n</body></html>").data) =
        X ++ (("\n").data ++ (['\n'] ++ (("\n").data ++ ("\n</body></html>").data))) := by
      simp [List.append_assoc]
    have hgl : (X ++ (("\n").data ++ (['\n'] ++ (("\n").data ++
        ("\n</body></html>").data)))).getLast? = some ('>') := by
      simp only [List.getLast?_append]
      rw [(by decide : ((("\n</body></html>").data) : List Char).getLast? = some ('>'))]
      rfl
    have hsr : stripRight (X ++ (("\n").data ++ (['\n'] ++ (("\n").data ++
        ("\n</body></html>").data)))) =
        X ++ (("\n").data ++ (['\n'] ++ (("\n").data ++ ("\n</body></html>").data))) := by
      refine stripRight_eq_of_getLast _ ?_
      intro c hc
      rw [hgl] at hc
      cases hc
      decide
    unfold pyStrip
    rw [hform]
    rw [stripLeft_eq_self_of_head _ (goodX_head X _ hX)]
    rw [hsr]
  have hdoc : startsCI (("<!doctype html").data)
      (pyStrip ((X ++ ("\n").data ++ ['\n']) ++ (("\n").data ++
        ("\n</body></html>").data))) = true := by
    rw [hpsS]
    have hform : (X ++ ("\n").data ++ ['\n']) ++ (("\n").data ++
        ("\n</body></html>").data) =
        X ++ (("\n").data ++ (['\n'] ++ (("\n").data ++ ("\n</body></html>").data))) := by
      simp [List.append_assoc]
    rw [hform]
    rw [startsCI_append_left (("<!doctype html").data) X _
      (startsCI_length_le _ _ hX.2.2.2.1)]
    exact hX.2.2.2.1
  rw [if_pos hdoc]
  rw [step4_again X hX]
  have hfin : pyStrip (X ++ ("\n").data ++ ['\n'] ++ ("\n").data ++ ("\n").data) = X := by
    have hf : X ++ ("\n").data ++ ['\n'] ++ ("\n").data ++ ("\n").data =
        X ++ (("\n").data ++ (['\n'] ++ (("\n").data ++ ("\n").data))) := by
      simp [List.append_assoc]
    rw [hf]
    exact goodX_strip X _ hX (by decide)
  rw [hfin]

theorem dropWhile_suffix (p : Char → Bool) (l : List Char) : l.dropWhile p <:+ l := by
  induction l with
  | nil => exact List.nil_suffix
  | cons x r ih =>
    rw [List.dropWhile_cons]
    by_cases h : p x = true
    · rw [if_pos h]
      exact ih.trans (List.suffix_cons x r)
    · rw [if_neg h]

/-- The part of `prepare_satellite_content` that precedes the appended
footer: strip old footers, clean stray closings, wrap bare content, strip
the trailing close. -/
def prep_front (stem c : List Char) : List Char :=
  pyStrip (step4
    (if startsCI (("<!doctype html").data) (pyStrip (step2 (removeFooters c)))
     then step2 (removeFooters c)
     else wrap_skeleton stem (step2 (removeFooters c))))

theorem prepare_article_form (stem footer c : List Char) :
    prepare_article stem footer c =
      prep_front stem c ++ ("\n").data ++ footer ++ ("\n</body></html>").data := rfl

/-- Outcomes of the external deploy calls that `main` makes in one run:
the two pre-loop calls whose results are discarded
(src/auto_deploy.py:1861-1869) and the two aggregation-loop calls that are
counted (src/auto_deploy.py:1891-1905).  `some url` means the platform
returned a URL, `none` means the call failed. -/
structure DeployOutcomes where
  netlifyPre : Option String
  vercelPre : Option String
  netlifyLoop : Option String
  vercelLoop : Option String
deriving Repr, DecidableEq

/-- Embedding of `main` (src/auto_deploy.py:1841-1916) together with its
`__main__` wrapper (1918-1947), returning the process exit code.
An empty pool returns False (exit 1).  When the incremental (GitHub)
partition is non-empty, `create_repo_with_content` is called with two
arguments although it takes three (src/auto_deploy.py:1859 vs 1565), so the
run raises TypeError, which the top-level handler turns into exit 1 before
any other deploy call.  Otherwise the discarded pre-loop deploys run, then
the loop counts one success per platform whose deploy returned a URL, and
the process exits 0 iff that count is positive. -/
def main_exit_code (all_articles new_articles : List Article)
    (netlify_picks vercel_picks : List Nat) (o : DeployOutcomes) : Nat :=
  if all_articles.isEmpty then 1
  else if !(distribute_articles all_articles new_articles netlify_picks
      vercel_picks).github.isEmpty then 1
  else if 0 <
      ((if !(distribute_articles all_articles new_articles netlify_picks
            vercel_picks).netlify.isEmpty && o.netlifyLoop.isSome then 1 else 0) +
       (if !(distribute_articles all_articles new_articles netlify_picks
            vercel_picks).vercel.isEmpty && o.vercelLoop.isSome then 1 else 0) : Nat)
    then 0 else 1

/-- The claim's left-hand side: did at least one publish attempt of the run
succeed?  With a non-empty incremental partition the run raises before any
deploy call completes; otherwise the two discarded pre-loop calls and the
two counted loop calls are all attempts made on non-empty partitions. -/
def some_publish_succeeded (all_articles new_articles : List Article)
    (netlify_picks vercel_picks : List Nat) (o : DeployOutcomes) : Bool :=
  if all_articles.isEmpty then false
  else if !(distribute_articles all_articles new_articles netlify_picks
      vercel_picks).github.isEmpty then false
  else
    (!(distribute_articles all_articles new_articles netlify_picks
        vercel_picks).netlify.isEmpty &&
      (o.netlifyPre.isSome || o.netlifyLoop.isSome)) ||
    (!(distribute_articles all_articles new_articles netlify_picks
        vercel_picks).vercel.isEmpty &&
      (o.vercelPre.isSome || o.vercelLoop.isSome))

theorem main_exit_code_zero_iff (all_articles new_articles : List Article)
    (netlify_picks vercel_picks : List Nat) (o : DeployOutcomes) :
    main_exit_code all_articles new_articles netlify_picks vercel_picks o = 0 ↔
      (all_articles.isEmpty = false ∧
       (distribute_articles all_articles new_articles netlify_picks
          vercel_picks).github.isEmpty = true ∧
       ((!(distribute_articles all_articles new_articles netlify_picks
            vercel_picks).netlify.isEmpty && o.netlifyLoop.isSome) ||
        (!(distribute_articles all_articles new_articles netlify_picks
            vercel_picks).vercel.isEmpty && o.vercelLoop.isSome)) = true) := by
  cases hA : all_articles.isEmpty with
  | true => simp [main_exit_code, hA]
  | false =>
    cases hG : (distribute_articles all_articles new_articles netlify_picks
        vercel_picks).github.isEmpty with
    | false => simp [main_exit_code, hA, hG]
    | true =>
      cases hN : (!(distribute_articles all_articles new_articles netlify_picks
          vercel_picks).netlify.isEmpty && o.netlifyLoop.isSome) with
      | true => simp [main_exit_code, hA, hG, hN]
      | false =>
        cases hV : (!(distribute_articles all_articles new_articles netlify_picks
            vercel_picks).vercel.isEmpty && o.vercelLoop.isSome) with
        | true => simp [main_exit_code, hA, hG, hN, hV]
        | false => simp [main_exit_code, hA, hG, hN, hV]

/-- C3 (the code at the claim's failing input): in a run with a non-empty
pool, no new articles, a successful pre-loop Netlify publish and failing
loop publishes, at least one publish attempt succeeded yet the process
exits 1 — the exit status only aggregates the loop's publish attempts, so
the claimed equivalence fails on the code. -/
theorem exit_code_misses_preloop_success :
    some_publish_succeeded [⟨("a1"), ("n1"), ("c1")⟩] [] [] []
      ⟨some ("https://s.netlify.app"), none, none, none⟩ = true ∧
    main_exit_code [⟨("a1"), ("n1"), ("c1")⟩] [] [] []
      ⟨some ("https://s.netlify.app"), none, none, none⟩ = 1 := by
  constructor
  · decide
  · decide

/-- Witness for C2 at a concrete pool of three distinct articles and
capacity 10 (the "small pool" scenario): the partition has size 3,
is duplicate-free, and contains all three articles. -/
theorem distribute_articles_broadcast_cap_witness :
    ([⟨("a1"), ("n1"), ("c1")⟩, ⟨("a2"), ("n2"), ("c2")⟩,
      ⟨("a3"), ("n3"), ("c3")⟩] : List Article).Nodup ∧
    ((distribute_articles
        [⟨("a1"), ("n1"), ("c1")⟩, ⟨("a2"), ("n2"), ("c2")⟩, ⟨("a3"), ("n3"), ("c3")⟩]
        [] [5, 2] [0]).netlify.length = min 10 3) := by
  have h : ([⟨("a1"), ("n1"), ("c1")⟩, ⟨("a2"), ("n2"), ("c2")⟩,
      ⟨("a3"), ("n3"), ("c3")⟩] : List Article).Nodup := by decide
  exact ⟨h, (distribute_articles_broadcast_cap
    [⟨("a1"), ("n1"), ("c1")⟩, ⟨("a2"), ("n2"), ("c2")⟩, ⟨("a3"), ("n3"), ("c3")⟩]
    [] [5, 2] [0] h).1⟩
